import Mathlib

/-!
Verification of the routing subsystem of the `vinuxt` repository:
`packages/vinuxt/src/routing/router.ts` (page routes) and
`packages/vinuxt/src/server/api-handler.ts` (endpoint routes).

The TypeScript source is shallowly embedded: strings are Lean `String`s,
JavaScript string primitives (`split`, `startsWith`, `slice`, `endsWith`,
`toLowerCase`, `includes`) are re-implemented below over `String.data`
with JS semantics, and the stateful route cache is embedded as explicit
state passing.  `decodeURIComponent` (a host builtin) is modelled as a
strict percent/UTF-8 decoder returning `Option`, matching the ECMAScript
Decode algorithm's success/failure behaviour.  `localeCompare` (a host
builtin used only as a deterministic tiebreaker) is modelled as
code-point lexicographic comparison.  `Array.prototype.sort` (stable in
JS) is modelled by a stable insertion sort.
-/

namespace Vinuxt

/-- JS-style character class `\w` (ASCII letters, digits, underscore). -/
def isWordChar (c : Char) : Bool := c.isAlphanum || c = '_'

/-- `pre` is a prefix of `l` (char-list level `String.prototype.startsWith`). -/
def listStartsWith : List Char → List Char → Bool
  | _, [] => true
  | [], _ :: _ => false
  | c :: l, p :: pre => c = p && listStartsWith l pre

/-- Split a char list off its last element, `none` on the empty list. -/
def splitLastChar : List Char → Option (List Char × Char)
  | [] => none
  | [c] => some ([], c)
  | c :: c' :: rest =>
    (splitLastChar (c' :: rest)).map (fun p => (c :: p.1, p.2))

/-- JS `String.prototype.split` on a single-character separator
(keeps empty pieces; splitting the empty string yields `[[]]`). -/
def splitChar (sep : Char) : List Char → List (List Char)
  | [] => [[]]
  | c :: rest =>
    if c = sep then [] :: splitChar sep rest
    else
      match splitChar sep rest with
      | [] => [[c]]
      | piece :: pieces => (c :: piece) :: pieces

/-- JS `s.split(sep)` for a one-character separator. -/
def strSplit (s : String) (sep : Char) : List String :=
  (splitChar sep s.data).map String.mk

/-- JS `s.startsWith(p)`. -/
def strStartsWith (s p : String) : Bool := listStartsWith s.data p.data

/-- JS `s.endsWith(p)`. -/
def strEndsWith (s p : String) : Bool :=
  listStartsWith s.data.reverse p.data.reverse

/-- JS `s.slice(n)` for `0 ≤ n`. -/
def strDrop (s : String) (n : Nat) : String := ⟨s.data.drop n⟩

/-- Drop the last `n` characters (used for `s.slice(a, -n)` shapes). -/
def strDropRight (s : String) (n : Nat) : String :=
  ⟨s.data.take (s.data.length - n)⟩

/-- JS `s.slice(1, -1)`. -/
def strSlice1Neg1 (s : String) : String := strDropRight (strDrop s 1) 1

/-- JS `s.includes(c)` for a single character. -/
def strContainsChar (s : String) (c : Char) : Bool := s.data.contains c

/-- JS `s.length`. -/
def strLen (s : String) : Nat := s.data.length

/-- ASCII `String.prototype.toLowerCase` (method-name strings are ASCII). -/
def strLower (s : String) : String := ⟨s.data.map Char.toLower⟩

/-- `xs.join("/")`. -/
def joinSlash : List String → String
  | [] => ""
  | [s] => s
  | s :: s' :: rest => s ++ "/" ++ joinSlash (s' :: rest)

/-- Code-point lexicographic comparison on char lists; models the
deterministic total-order tiebreak the source gets from `localeCompare`. -/
def lexLeChars : List Char → List Char → Bool
  | a :: as, b :: bs =>
    if a.toNat < b.toNat then true
    else if b.toNat < a.toNat then false
    else lexLeChars as bs
  | [], _ => true
  | _ :: _, [] => false

/-- Lexicographic `≤` on strings (tiebreaker model). -/
def strLexLe (a b : String) : Bool := lexLeChars a.data b.data

/-- `xs.join(sep)`. -/
def joinWith (sep : String) : List String → String
  | [] => ""
  | [s] => s
  | s :: s' :: rest => s ++ sep ++ joinWith sep (s' :: rest)

/-- Insert/overwrite a key in an association list, preserving the position
of an existing key (JS `Map.prototype.set` / object property assignment). -/
def assocSet {α : Type} (m : List (String × α)) (k : String) (v : α) :
    List (String × α) :=
  if m.any (fun p => p.1 = k) then
    m.map (fun p => if p.1 = k then (k, v) else p)
  else m ++ [(k, v)]

/-- Key lookup in an association list (JS `Map.prototype.get` / object
property read). -/
def assocGet {α : Type} (k : String) : List (String × α) → Option α
  | [] => none
  | p :: m => if k = p.1 then some p.2 else assocGet k m

/-! ## Percent decoding (`decodeURIComponent` model)

The ECMAScript Decode algorithm: literal characters pass through, `%XX`
sequences are parsed as bytes and must form strict UTF-8; any malformed
escape or invalid byte sequence makes the whole decode fail (the source
catches the resulting `URIError` and falls back to the raw string). -/

/-- Value of a hex digit character (codes 48-57 are `0`-`9`, 65-70 are
`A`-`F`, 97-102 are `a`-`f`). -/
def hexVal (c : Char) : Option Nat :=
  let n := c.toNat
  if 48 ≤ n ∧ n ≤ 57 then some (n - 48)
  else if 65 ≤ n ∧ n ≤ 70 then some (n - 55)
  else if 97 ≤ n ∧ n ≤ 102 then some (n - 87)
  else none

/-- Read one `%XX` escape from the front of the input. -/
def readPctByte : List Char → Option (Nat × List Char)
  | '%' :: h1 :: h2 :: rest =>
    match hexVal h1, hexVal h2 with
    | some a, some b => some (a * 16 + b, rest)
    | _, _ => none
  | _ => none

/-- Read one `%XX` escape that must be a UTF-8 continuation byte. -/
def readContByte (l : List Char) : Option (Nat × List Char) :=
  match readPctByte l with
  | some (b, rest) => if 0x80 ≤ b ∧ b ≤ 0xBF then some (b, rest) else none
  | none => none

/-- Fuel-indexed decode loop (each step consumes at least one character,
so fuel `length + 1` always suffices). -/
def pctDecodeAux : Nat → List Char → Option (List Char)
  | 0, _ => none
  | _ + 1, [] => some []
  | fuel + 1, c :: rest =>
    if c = '%' then
      match readPctByte (c :: rest) with
      | none => none
      | some (b, rest1) =>
        if b < 0x80 then
          (pctDecodeAux fuel rest1).map (fun l => Char.ofNat b :: l)
        else if 0xC2 ≤ b ∧ b ≤ 0xDF then
          match readContByte rest1 with
          | some (b2, rest2) =>
            (pctDecodeAux fuel rest2).map
              (fun l => Char.ofNat ((b - 0xC0) * 0x40 + (b2 - 0x80)) :: l)
          | none => none
        else if 0xE0 ≤ b ∧ b ≤ 0xEF then
          match readContByte rest1 with
          | some (b2, rest2) =>
            if (b = 0xE0 ∧ b2 < 0xA0) ∨ (b = 0xED ∧ 0x9F < b2) then none
            else
              match readContByte rest2 with
              | some (b3, rest3) =>
                (pctDecodeAux fuel rest3).map (fun l =>
                  Char.ofNat
                    ((b - 0xE0) * 0x1000 + (b2 - 0x80) * 0x40 + (b3 - 0x80)) :: l)
              | none => none
          | none => none
        else if 0xF0 ≤ b ∧ b ≤ 0xF4 then
          match readContByte rest1 with
          | some (b2, rest2) =>
            if (b = 0xF0 ∧ b2 < 0x90) ∨ (b = 0xF4 ∧ 0x8F < b2) then none
            else
              match readContByte rest2 with
              | some (b3, rest3) =>
                match readContByte rest3 with
                | some (b4, rest4) =>
                  (pctDecodeAux fuel rest4).map (fun l =>
                    Char.ofNat
                      ((b - 0xF0) * 0x40000 + (b2 - 0x80) * 0x1000 +
                        (b3 - 0x80) * 0x40 + (b4 - 0x80)) :: l)
                | none => none
              | none => none
          | none => none
        else none
    else (pctDecodeAux fuel rest).map (fun l => c :: l)

/-- `decodeURIComponent` as a total function: `none` models a thrown
`URIError`. -/
def decodeURIComponentOpt (s : String) : Option String :=
  (pctDecodeAux (s.data.length + 1) s.data).map String.mk

/-! ## Page routes data model (`router.ts`) -/

/-- `Route` (router.ts 4-15).  `filePath` is the path to the page file. -/
structure Route where
  pattern : String
  filePath : String
  isDynamic : Bool
  params : List String
  children : List Route

/-- A matched parameter value: scalar for `:name`, list for `:name+` /
`:name*` (matchPattern stores either a string or an array). -/
inductive ParamVal where
  | str (s : String)
  | list (l : List String)
deriving DecidableEq, Repr

/-- Parameter record in key-insertion order (JS object semantics:
assignment to an existing key overwrites in place). -/
abbrev Params := List (String × ParamVal)

/-! ## Page pattern matching (router.ts 315-360) -/

/-- `url.split("/").filter(Boolean)` — the non-empty segments. -/
def urlSegments (s : String) : List String :=
  (strSplit s '/').filter (fun seg => seg ≠ "")

/-- The loop of `matchPattern` (router.ts 324-359), walking the pattern
segments in parallel with the not-yet-consumed URL segments; the final
equal-length check (line 357) appears as the empty-pattern case. -/
def matchSegs : List String → List String → Params → Option Params
  | [], url_rest, params => if url_rest.isEmpty then some params else none
  | pp :: pat_rest, url_rest, params =>
    if strEndsWith pp "+" then
      if url_rest.isEmpty then none
      else some (assocSet params (strSlice1Neg1 pp) (ParamVal.list url_rest))
    else if strEndsWith pp "*" then
      some (assocSet params (strSlice1Neg1 pp) (ParamVal.list url_rest))
    else if strStartsWith pp ":" then
      match url_rest with
      | [] => none
      | u :: url_rest' =>
        matchSegs pat_rest url_rest' (assocSet params (strDrop pp 1) (ParamVal.str u))
    else
      match url_rest with
      | [] => none
      | u :: url_rest' =>
        if u = pp then matchSegs pat_rest url_rest' params else none

/-- `matchPattern(url, pattern)` (router.ts 315-360). -/
def matchPattern (url pattern : String) : Option Params :=
  matchSegs (urlSegments pattern) (urlSegments url) []

/-- `matchChildren` (router.ts 294-313): try each child against the full
(parent-prefixed) child pattern. -/
def matchChildrenList (url parentPattern : String) :
    List Route → Option (Route × Params)
  | [] => none
  | child :: rest =>
    let pattern_full :=
      if parentPattern = "/" then "/" ++ child.pattern
      else if child.pattern = "" then parentPattern
      else parentPattern ++ "/" ++ child.pattern
    match matchPattern url pattern_full with
    | some params => some (child, params)
    | none => matchChildrenList url parentPattern rest

/-- Normalization prefix of `matchRoute` before decoding (router.ts
254-255): drop the query string, strip one trailing slash except for the
literal root path. -/
def preDecode (url : String) : String :=
  let pathname := ((strSplit url '?').headD "")
  if pathname = "/" then "/"
  else if strEndsWith pathname "/" then strDropRight pathname 1
  else pathname

/-- Full URL normalization of `matchRoute` (router.ts 253-260):
percent-decode, falling back to the un-decoded string on failure. -/
def normalizeUrl (url : String) : String :=
  match decodeURIComponentOpt (preDecode url) with
  | some s => s
  | none => preDecode url

/-- The route loop of `matchRoute` (router.ts 262-291), on an already
normalized URL. -/
def matchRouteList (url_normalized : String) :
    List Route → Option (Route × Params)
  | [] => none
  | route :: rest =>
    let viaChildren :=
      if route.children.length > 0 then
        match matchPattern url_normalized route.pattern with
        | some params_parent =>
          match matchChildrenList url_normalized route.pattern route.children with
          | some r => some r
          | none => some (route, params_parent)
        | none =>
          let pref := if route.pattern = "/" then "/" else route.pattern ++ "/"
          if strStartsWith url_normalized pref ∨ url_normalized = route.pattern then
            matchChildrenList url_normalized route.pattern route.children
          else none
      else none
    match viaChildren with
    | some r => some r
    | none =>
      match matchPattern url_normalized route.pattern with
      | some params => some (route, params)
      | none => matchRouteList url_normalized rest

/-- `matchRoute(url, routes)` (router.ts 249-292). -/
def matchRoute (url : String) (routes : List Route) : Option (Route × Params) :=
  matchRouteList (normalizeUrl url) routes

/-! ## File-to-route derivation (router.ts 55-131) -/

/-- `file.replace(/\.(vue|tsx?|jsx?)$/, "")`. -/
def stripPageExt (file : String) : String :=
  if strEndsWith file ".vue" then strDropRight file 4
  else if strEndsWith file ".tsx" then strDropRight file 4
  else if strEndsWith file ".jsx" then strDropRight file 4
  else if strEndsWith file ".ts" then strDropRight file 3
  else if strEndsWith file ".js" then strDropRight file 3
  else file

/-- `segment.match(/^\[\.\.\.(\w+)\]$/)` — the captured name, if any. -/
def matchCatchAllSeg (s : String) : Option String :=
  if listStartsWith s.data ['[', '.', '.', '.'] then
    match splitLastChar (s.data.drop 4) with
    | some (inner, ']') =>
      if inner ≠ [] ∧ inner.all isWordChar then some ⟨inner⟩ else none
    | _ => none
  else none

/-- `segment.match(/^\[\[\.\.\.(\w+)\]\]$/)` — the captured name, if any. -/
def matchOptCatchAllSeg (s : String) : Option String :=
  if listStartsWith s.data ['[', '[', '.', '.', '.'] then
    match splitLastChar (s.data.drop 5) with
    | some (mid, ']') =>
      match splitLastChar mid with
      | some (inner, ']') =>
        if inner ≠ [] ∧ inner.all isWordChar then some ⟨inner⟩ else none
      | _ => none
    | _ => none
  else none

/-- `segment.match(/^\[(\w+)\]$/)` — the captured name, if any. -/
def matchDynamicSeg (s : String) : Option String :=
  match s.data with
  | '[' :: rest =>
    match splitLastChar rest with
    | some (inner, ']') =>
      if inner ≠ [] ∧ inner.all isWordChar then some ⟨inner⟩ else none
    | _ => none
  | _ => none

/-- One step of the segment map in `fileToRoute` (router.ts 94-120):
the URL form of the segment, plus the captured parameter name if the
segment was dynamic.  The three bracket forms are tried in source order. -/
def segToUrl (segment : String) : String × Option String :=
  match matchCatchAllSeg segment with
  | some name => (":" ++ name ++ "+", some name)
  | none =>
    match matchOptCatchAllSeg segment with
    | some name => (":" ++ name ++ "*", some name)
    | none =>
      match matchDynamicSeg segment with
      | some name => (":" ++ name, some name)
      | none => (segment, none)

/-- `fileToRoute(file, pagesDir)` (router.ts 77-131).  `path.join` is
modelled as `/`-concatenation. -/
def fileToRoute (file pagesDir : String) : Route :=
  let ext_without := stripPageExt file
  let segs0 := strSplit ext_without '/'
  let segments := if segs0.getLast? = some "index" then segs0.dropLast else segs0
  let mapped := segments.map segToUrl
  let segments_url := mapped.map (fun p => p.1)
  { pattern := "/" ++ joinWith "/" segments_url
    filePath := pagesDir ++ "/" ++ file
    isDynamic := mapped.any (fun p => p.2.isSome)
    params := mapped.filterMap (fun p => p.2)
    children := [] }

/-- The underscore filter of `scanPageRoutes` (router.ts 62-63). -/
def hasUnderscoreSegment (file : String) : Bool :=
  (strSplit file '/').any (fun seg => strStartsWith seg "_")

/-! ## Route tree building (router.ts 140-242) -/

/-- `path.basename`. -/
def pathBasename (p : String) : String := ((strSplit p '/').getLast?).getD ""

/-- `basename.match(/^index\.(vue|tsx?|jsx?)$/)` (router.ts 153). -/
def isIndexFileName (name : String) : Bool :=
  name = "index.vue" ∨ name = "index.tsx" ∨ name = "index.ts" ∨
    name = "index.jsx" ∨ name = "index.js"

/-- `routePrecedence(pattern)` (router.ts 227-242). -/
def routePrecedence (pattern : String) : Nat :=
  let parts := (strSplit pattern '/').filter (fun p => p ≠ "")
  (parts.enum.map (fun ip =>
    if strEndsWith ip.2 "+" then 10000 + ip.1
    else if strEndsWith ip.2 "*" then 20000 + ip.1
    else if strStartsWith ip.2 ":" then 100 + ip.1
    else 0)).sum

/-- The sort comparator of `buildRouteTree` (router.ts 202-204, 211-213)
as a boolean total preorder: precedence first, then the lexicographic
tiebreak (model of `localeCompare`). -/
def routeLe (a b : Route) : Bool :=
  let pa := routePrecedence a.pattern
  let pb := routePrecedence b.pattern
  if pa < pb then true
  else if pb < pa then false
  else strLexLe a.pattern b.pattern

/-- Insert `x` after every element `y` with `le y x` — the stable
insertion position. -/
def insertLe {α : Type} (le : α → α → Bool) (x : α) : List α → List α
  | [] => [x]
  | y :: ys => if le y x then y :: insertLe le x ys else x :: y :: ys

/-- Stable sort (model of JS `Array.prototype.sort`, which is stable; a
stable sort w.r.t. a total preorder has a unique result). -/
def stableSortBy {α : Type} (le : α → α → Bool) (l : List α) : List α :=
  l.foldl (fun acc x => insertLe le x acc) []

/-- First pass of `buildRouteTree` (router.ts 150-156): the parent map,
keyed by pattern, holding the index of the candidate route.  Insertion
order and overwrite-in-place follow JS `Map` semantics. -/
def buildParentMap (flat : List Route) : List (String × Nat) :=
  flat.enum.foldl
    (fun m ir =>
      if ir.2.pattern = "/" then m
      else if isIndexFileName (pathBasename ir.2.filePath) then m
      else assocSet m ir.2.pattern ir.1)
    []

/-- The child test of `buildRouteTree` (router.ts 169-183): the relative
child pattern when `pattern` is a direct child or the index child of
`pattern_parent`. -/
def childRelPattern (pattern_parent pattern : String) : Option String :=
  if pattern = pattern_parent then some ""
  else if strStartsWith pattern (pattern_parent ++ "/") ∧
      ¬ strContainsChar (strDrop pattern (strLen (pattern_parent ++ "/"))) '/' then
    some (strDrop pattern (strLen (pattern_parent ++ "/")))
  else none

/-- Whether the route at index `j` is claimed as a child by some parent
candidate (router.ts 159-192; a route may be claimed by several). -/
def isChildIdx (parentMap : List (String × Nat)) (j : Nat) (r : Route) : Bool :=
  parentMap.any (fun pp => j ≠ pp.2 ∧ (childRelPattern pp.1 r.pattern).isSome)

/-- The final contents of the (mutated, shared) `children` array of the
parent at index `p`: every route claimed by it, in flat-list order, with
the relative pattern.  A claimed route that is itself the parent-map
winner for its own pattern shares its (also mutated) array, which is what
the recursive call reproduces; nesting depth is bounded by the list
length, so `flat.length + 1` fuel is always enough. -/
def childrenOfIdx (flat : List Route) (parentMap : List (String × Nat)) :
    Nat → Nat → List Route
  | 0, _ => []
  | fuel + 1, p =>
    match flat.get? p with
    | none => []
    | some rp =>
      flat.enum.filterMap (fun jr =>
        if jr.1 = p then none
        else
          match childRelPattern rp.pattern jr.2.pattern with
          | some rel =>
            let kids :=
              if assocGet jr.2.pattern parentMap = some jr.1 then
                childrenOfIdx flat parentMap fuel jr.1
              else jr.2.children
            some { jr.2 with pattern := rel, children := kids }
          | none => none)

/-- `buildRouteTree(flat_routes)` (router.ts 140-217). -/
def buildRouteTree (flat : List Route) : List Route :=
  let parentMap := buildParentMap flat
  let routes_top := flat.enum.filterMap (fun ir =>
    if isChildIdx parentMap ir.1 ir.2 then none
    else
      let kids :=
        if assocGet ir.2.pattern parentMap = some ir.1 then
          childrenOfIdx flat parentMap (flat.length + 1) ir.1
        else ir.2.children
      let kids_sorted := if kids.length > 0 then stableSortBy routeLe kids else kids
      some { ir.2 with children := kids_sorted })
  stableSortBy routeLe routes_top

/-- `scanPageRoutes` (router.ts 55-72) on an explicit list of globbed
relative file paths: filter underscore-prefixed segments, derive flat
routes, build the tree. -/
def scanPageRoutesList (files : List String) (pagesDir : String) : List Route :=
  buildRouteTree
    ((files.filter (fun f => ¬ hasUnderscoreSegment f)).map
      (fun f => fileToRoute f pagesDir))

/-! ## Endpoint routes (`api-handler.ts`) -/

/-- `ApiRoute` (api-handler.ts 16-23). -/
structure ApiRoute where
  pattern : String
  file_path : String
  method : Option String
deriving DecidableEq, Repr

/-- `HTTP_METHODS` (api-handler.ts 29-37). -/
def httpMethods : List String :=
  ["get", "post", "put", "delete", "patch", "head", "options"]

/-- `filename.replace(/\.(ts|js)$/, "")`. -/
def stripApiExt (s : String) : String :=
  if strEndsWith s ".ts" then strDropRight s 3
  else if strEndsWith s ".js" then strDropRight s 3
  else s

/-- `extractHttpMethod(filename)` (api-handler.ts 63-76). -/
def extractHttpMethod (filename : String) : Option String :=
  let parts := strSplit (stripApiExt filename) '.'
  if parts.length < 2 then none
  else
    let cand := strLower ((parts.getLast?).getD "")
    if httpMethods.contains cand then some cand else none

/-- The `dir_type` argument of `filePathToRoutePattern`. -/
inductive DirType where
  | api
  | routes
deriving DecidableEq, Repr

/-- Bracket conversion for endpoint segments (api-handler.ts 125-139):
catch-all and single-dynamic only, no optional catch-all form. -/
def apiSegToUrl (segment : String) : String :=
  match matchCatchAllSeg segment with
  | some name => ":" ++ name ++ "+"
  | none =>
    match matchDynamicSeg segment with
    | some name => ":" ++ name
    | none => segment

/-- `filePathToRoutePattern(file_relative, dir_type)` (api-handler.ts
93-147). -/
def filePathToRoutePattern (file_relative : String) (dir_type : DirType) : String :=
  let pref := match dir_type with
    | DirType.api => "server/api/"
    | DirType.routes => "server/routes/"
  let stripped :=
    if strStartsWith file_relative pref then strDrop file_relative (strLen pref)
    else file_relative
  let segments := strSplit (stripApiExt stripped) '/'
  let parts_last := strSplit ((segments.getLast?).getD "") '.'
  let segments :=
    if parts_last.length ≥ 2 ∧
        httpMethods.contains (strLower ((parts_last.getLast?).getD "")) then
      segments.dropLast ++ [joinWith "." parts_last.dropLast]
    else segments
  let segments := if segments.getLast? = some "index" then segments.dropLast else segments
  let route_path := joinWith "/" (segments.map apiSegToUrl)
  match dir_type with
  | DirType.api => if route_path ≠ "" then "/api/" ++ route_path else "/api"
  | DirType.routes => if route_path ≠ "" then "/" ++ route_path else "/"

/-- The loop of the endpoint `matchPattern` (api-handler.ts 187-217):
like the page walk, but a catch-all binds the remaining path slash-joined,
and there is no optional catch-all branch. -/
def apiMatchSegs : List String → List String → List (String × String) →
    Option (List (String × String))
  | [], path_rest, params => if path_rest.isEmpty then some params else none
  | seg :: pat_rest, path_rest, params =>
    if strStartsWith seg ":" ∧ strEndsWith seg "+" then
      if path_rest.isEmpty then none
      else some (assocSet params (strSlice1Neg1 seg) (joinWith "/" path_rest))
    else if strStartsWith seg ":" then
      match path_rest with
      | [] => none
      | u :: rest => apiMatchSegs pat_rest rest (assocSet params (strDrop seg 1) u)
    else
      match path_rest with
      | [] => none
      | u :: rest => if seg = u then apiMatchSegs pat_rest rest params else none

/-- Endpoint `matchPattern(pattern, pathname)` (api-handler.ts 179-218). -/
def apiMatchPattern (pattern pathname : String) :
    Option (List (String × String)) :=
  apiMatchSegs (urlSegments pattern) (urlSegments pathname) []

/-- The route loop of `matchApiRoute` (api-handler.ts 162-172) with the
request method already lowercased.  `route.method && …` is JS truthiness:
an empty-string method is falsy and never causes a skip. -/
def matchApiRouteAux (pathname method_lower : String) :
    List ApiRoute → Option (ApiRoute × List (String × String))
  | [] => none
  | route :: rest =>
    let skip : Bool := match route.method with
      | some m => m ≠ "" && m ≠ method_lower
      | none => false
    if skip then matchApiRouteAux pathname method_lower rest
    else
      match apiMatchPattern route.pattern pathname with
      | some params => some (route, params)
      | none => matchApiRouteAux pathname method_lower rest

/-- `matchApiRoute(pathname, method, routes)` (api-handler.ts 155-173). -/
def matchApiRoute (pathname method : String) (routes : List ApiRoute) :
    Option (ApiRoute × List (String × String)) :=
  matchApiRouteAux pathname (strLower method) routes

/-! ## Filesystem model and scanners over it -/

/-- Abstract filesystem: the directories that exist, each with the file
paths its recursive glob yields.  `glob` over a nonexistent cwd yields no
matches (Node `fs.promises.glob` behaviour), so `globFiles` of a missing
directory is the empty list. -/
structure FileSystem where
  dirs : List (String × List String)

/-- `fs.existsSync(dir)`. -/
def FileSystem.dirExists (fs : FileSystem) (d : String) : Bool :=
  (assocGet d fs.dirs).isSome

/-- The files the glob walk yields for `d`. -/
def FileSystem.globFiles (fs : FileSystem) (d : String) : List String :=
  (assocGet d fs.dirs).getD []

/-- `scanPageRoutes(pagesDir)` (router.ts 55-72) over the abstract
filesystem. -/
def scanPageRoutesFS (fs : FileSystem) (pagesDir : String) : List Route :=
  scanPageRoutesList (fs.globFiles pagesDir) pagesDir

/-- `scanApiRoutes(root)` (api-handler.ts 226-254) over the abstract
filesystem: a directory that does not exist is skipped (`existsSync`
guard, line 235). -/
def scanApiRoutesFS (fs : FileSystem) (root : String) : List ApiRoute :=
  let dirs : List (String × DirType) :=
    [(root ++ "/server/api", DirType.api), (root ++ "/server/routes", DirType.routes)]
  dirs.foldl
    (fun acc dt =>
      if fs.dirExists dt.1 then
        acc ++ (fs.globFiles dt.1).map (fun file =>
          let relDir := match dt.2 with
            | DirType.api => "server/api/"
            | DirType.routes => "server/routes/"
          { pattern := filePathToRoutePattern (relDir ++ file) dt.2
            file_path := dt.1 ++ "/" ++ file
            method := extractHttpMethod (pathBasename file) : ApiRoute })
      else acc)
    []

/-! ## Route cache (router.ts 18-53) as explicit state

`scanRoutes` runs its cache lookup and cache insertion (lines 45-49)
synchronously before its first `await`, so under JS run-to-completion
this prefix is atomic; `scanRoutesStep` is that atomic prefix.  When the
awaited scan resolves, the continuation at lines 50-51 runs as a second
atomic step and writes the cache entry back with the resolved routes and
the same promise; `scanRoutesResolve` is that completion step.  Between
the two steps, other calls — including `invalidateRouteCache` — may
interleave.  A cache entry stores the promise identity; two callers
holding the same promise id necessarily settle on the same resolved
route list. -/

structure CacheState where
  /-- `routeCache`: pages directory ↦ identity of the scan promise. -/
  cache : List (String × Nat)
  /-- Supply of fresh promise identities. -/
  nextPromise : Nat

/-- The synchronous prefix of `scanRoutes(pagesDir)` (router.ts 45-49):
returns the promise the caller awaits, the updated state, and whether a
new filesystem walk was started. -/
def scanRoutesStep (s : CacheState) (dir : String) : Nat × CacheState × Bool :=
  match assocGet dir s.cache with
  | some pid => (pid, s, false)
  | none =>
    (s.nextPromise,
      { cache := assocSet s.cache dir s.nextPromise
        nextPromise := s.nextPromise + 1 },
      true)

/-- The completion step of `scanRoutes(pagesDir)` (router.ts 50-51):
after `await promise`, the entry is written back with the resolved
routes and the same promise `pid`.  This write runs unconditionally, so
it re-inserts an entry that was invalidated while the scan was in
flight. -/
def scanRoutesResolve (s : CacheState) (dir : String) (pid : Nat) : CacheState :=
  { s with cache := assocSet s.cache dir pid }

/-- `invalidateRouteCache(pagesDir)` (router.ts 27-29). -/
def invalidateRouteCache (s : CacheState) (dir : String) : CacheState :=
  { s with cache := s.cache.filter (fun p => p.1 ≠ dir) }

/-! ## Specification-side definitions

Written from the spec's words, to be compared with the source embeddings
above.  The spec classifies segments by full token shape (`:name`,
`:name+`, `:name*`), so a token is a catch-all only when it both starts
with `:` and ends with `+`; the source classifies by suffix alone.  A
segment of a derived route pattern is well formed when the two agree. -/

/-- A pattern segment as produced by the derivers: a `+`/`*` suffix only
ever occurs on a `:`-token. -/
def SegTokenWf (s : String) : Prop :=
  (strEndsWith s "+" = true → strStartsWith s ":" = true) ∧
    (strEndsWith s "*" = true → strStartsWith s ":" = true)

/-- Endpoint pattern segment: additionally, no optional catch-all. -/
def SegApiWf (s : String) : Prop :=
  (strEndsWith s "+" = true → strStartsWith s ":" = true) ∧
    strEndsWith s "*" = false

instance (s : String) : Decidable (SegTokenWf s) := by
  unfold SegTokenWf
  infer_instance

instance (s : String) : Decidable (SegApiWf s) := by
  unfold SegApiWf
  infer_instance

/-- Spec per-segment penalty: 0 for static, `100 + position` for `:name`,
`10000 + position` for `:name+`, `20000 + position` for `:name*`. -/
def claimSegScore (i : Nat) (seg : String) : Nat :=
  if strStartsWith seg ":" ∧ strEndsWith seg "+" then 10000 + i
  else if strStartsWith seg ":" ∧ strEndsWith seg "*" then 20000 + i
  else if strStartsWith seg ":" then 100 + i
  else 0

/-- Spec precedence score: sum of per-segment penalties over the
slash-separated non-empty segments. -/
def claimPrecedence (pattern : String) : Nat :=
  ((urlSegments pattern).enum.map (fun ip => claimSegScore ip.1 ip.2)).sum

/-- The page match walk as the spec words it (claim C2): segments are
classified by token shape, a catch-all needs at least one remaining URL
segment and binds the rest as a list, an optional catch-all binds the
possibly-empty rest, a dynamic segment consumes exactly one segment of
any content, a static segment needs string equality, and with the
pattern exhausted the URL must be exhausted too (equal segment counts
when no catch-all was consumed). -/
def claimMatchSegs : List String → List String → Params → Option Params
  | [], url_rest, params => if url_rest.isEmpty then some params else none
  | seg :: pat_rest, url_rest, params =>
    if strStartsWith seg ":" ∧ strEndsWith seg "+" then
      if url_rest.isEmpty then none
      else some (assocSet params (strSlice1Neg1 seg) (ParamVal.list url_rest))
    else if strStartsWith seg ":" ∧ strEndsWith seg "*" then
      some (assocSet params (strSlice1Neg1 seg) (ParamVal.list url_rest))
    else if strStartsWith seg ":" then
      match url_rest with
      | [] => none
      | u :: url_rest' =>
        claimMatchSegs pat_rest url_rest' (assocSet params (strDrop seg 1) (ParamVal.str u))
    else
      match url_rest with
      | [] => none
      | u :: url_rest' =>
        if u = seg then claimMatchSegs pat_rest url_rest' params else none

/-- Spec direct pattern/URL match: split both into non-empty segments and
walk. -/
def claimMatchPattern (url pattern : String) : Option Params :=
  claimMatchSegs (urlSegments pattern) (urlSegments url) []

/-- Claim C3 as stated: a route with children is entered on *exact string
equality* of the normalized URL with the route's own pattern (children
first, then the parent itself with its own params), or when the URL
starts with the pattern plus `/` (root: `/`), in which case the children
are attempted directly. -/
def claimMatchRouteExact (url : String) :
    List Route → Option (Route × Params)
  | [] => none
  | route :: rest =>
    let viaChildren :=
      if route.children.length > 0 then
        if url = route.pattern then
          match matchChildrenList url route.pattern route.children with
          | some r => some r
          | none => some (route, (matchPattern url route.pattern).getD [])
        else
          let pref := if route.pattern = "/" then "/" else route.pattern ++ "/"
          if strStartsWith url pref then
            matchChildrenList url route.pattern route.children
          else none
      else none
    match viaChildren with
    | some r => some r
    | none =>
      match matchPattern url route.pattern with
      | some params => some (route, params)
      | none => claimMatchRouteExact url rest

/-- Claim C3 amended: a route with children is entered on a *full pattern
match* of the normalized URL against the route's own pattern (children
first — so an index child wins — then the parent itself with its own
params); otherwise, when the URL starts with the pattern plus `/` (root:
`/`), the children are attempted directly and a successful child match
returns immediately. -/
def claimMatchRouteAmended (url : String) :
    List Route → Option (Route × Params)
  | [] => none
  | route :: rest =>
    let viaChildren :=
      if route.children.length > 0 then
        match matchPattern url route.pattern with
        | some params_parent =>
          match matchChildrenList url route.pattern route.children with
          | some r => some r
          | none => some (route, params_parent)
        | none =>
          let pref := if route.pattern = "/" then "/" else route.pattern ++ "/"
          if strStartsWith url pref then
            matchChildrenList url route.pattern route.children
          else none
      else none
    match viaChildren with
    | some r => some r
    | none =>
      match matchPattern url route.pattern with
      | some params => some (route, params)
      | none => claimMatchRouteAmended url rest

/-- Flatten a page-matcher parameter value the way the spec says the
endpoint matcher differs: a list binds as the slash-joined string. -/
def flattenParam : ParamVal → String
  | ParamVal.str s => s
  | ParamVal.list l => joinWith "/" l

/-- Flatten a whole page-matcher parameter record. -/
def flattenParams (ps : Params) : List (String × String) :=
  ps.map (fun kv => (kv.1, flattenParam kv.2))

/-- Claim C7 as worded: linear scan skipping routes whose recorded method
is set and differs case-insensitively from the request method; per-route
matching is the page matcher's direct match with catch-all bindings
slash-joined. -/
def claimMatchEndpoint (pathname method : String) :
    List ApiRoute → Option (ApiRoute × List (String × String))
  | [] => none
  | route :: rest =>
    let skip : Bool := match route.method with
      | some m => strLower m ≠ strLower method
      | none => false
    if skip then claimMatchEndpoint pathname method rest
    else
      match matchPattern pathname route.pattern with
      | some params => some (route, flattenParams params)
      | none => claimMatchEndpoint pathname method rest

/-! ## Concrete example fixtures -/

/-- The relative index child of the nested example (from
`pages/[uid]/index.vue`). -/
def exIndexChild : Route :=
  { pattern := "", filePath := "pages/[uid]/index.vue", isDynamic := true,
    params := ["uid"], children := [] }

/-- A nested route table with a dynamic parent and an index child, as
produced by scanning `pages/[uid].vue` and `pages/[uid]/index.vue`. -/
def exNestedRoutes : List Route :=
  [{ pattern := "/:uid", filePath := "pages/[uid].vue", isDynamic := true,
     params := ["uid"], children := [exIndexChild] }]

/-- Two endpoint routes at one pattern with `get` and `post` methods. -/
def exMethodRoutes : List ApiRoute :=
  [{ pattern := "/api/users", file_path := "f1", method := some "get" },
   { pattern := "/api/users", file_path := "f2", method := some "post" }]

/-- An endpoint route at the pattern `/api/c++`, exactly as the scanner
derives it from the legal file name `server/api/c++.ts`: the literal
segment `c++` ends in `+` without being a `:`-token. -/
def exPlusApiRoutes : List ApiRoute :=
  [{ pattern := "/api/c++", file_path := "server/api/c++.ts", method := none }]

/-- An endpoint route whose recorded method is the uppercase string
`GET` (not the lowercase form the scanner records). -/
def exUpperMethodRoutes : List ApiRoute :=
  [{ pattern := "/api/u", file_path := "server/api/u.ts", method := some "GET" }]

/-! ## Helper lemmas -/

theorem listStartsWith_iff : ∀ (l p : List Char),
    listStartsWith l p = true ↔ ∃ t, l = p ++ t
  | l, [] => by simp [listStartsWith]
  | [], c :: pre => by simp [listStartsWith]
  | a :: l, c :: pre => by
    simp only [listStartsWith, Bool.and_eq_true, decide_eq_true_eq,
      listStartsWith_iff l pre, List.cons_append]
    constructor
    · rintro ⟨rfl, t, rfl⟩
      exact ⟨t, rfl⟩
    · rintro ⟨t, ht⟩
      cases ht
      exact ⟨rfl, t, rfl⟩

theorem splitLastChar_append : ∀ (l : List Char) (c : Char),
    splitLastChar (l ++ [c]) = some (l, c)
  | [], c => rfl
  | a :: l, c => by
    cases l with
    | nil => rfl
    | cons b l' =>
      have ih := splitLastChar_append (b :: l') c
      simp only [List.cons_append] at ih ⊢
      rw [splitLastChar, ih]
      rfl

theorem lexLeChars_cons_iff (a b : Char) (as bs : List Char) :
    lexLeChars (a :: as) (b :: bs) = true ↔
      a.toNat < b.toNat ∨ (a.toNat = b.toNat ∧ lexLeChars as bs = true) := by
  rw [lexLeChars]
  split_ifs with h1 h2
  · simp [h1]
  · simp only [Bool.false_eq_true, false_iff]
    push_neg
    constructor
    · omega
    · intro h
      omega
  · have heq : a.toNat = b.toNat := by omega
    simp [heq]

theorem lexLeChars_total : ∀ (a b : List Char),
    lexLeChars a b = true ∨ lexLeChars b a = true
  | [], _ => Or.inl rfl
  | _ :: _, [] => Or.inr rfl
  | a :: as, b :: bs => by
    rw [lexLeChars_cons_iff, lexLeChars_cons_iff]
    rcases Nat.lt_trichotomy a.toNat b.toNat with h | h | h
    · exact Or.inl (Or.inl h)
    · rcases lexLeChars_total as bs with hr | hr
      · exact Or.inl (Or.inr ⟨h, hr⟩)
      · exact Or.inr (Or.inr ⟨h.symm, hr⟩)
    · exact Or.inr (Or.inl h)

theorem lexLeChars_trans : ∀ (a b c : List Char),
    lexLeChars a b = true → lexLeChars b c = true → lexLeChars a c = true
  | [], _, _ => by
    intro _ _
    rfl
  | a :: as, [], c => by
    intro h
    exact absurd h (by simp [lexLeChars])
  | a :: as, b :: bs, [] => by
    intro _ h
    exact absurd h (by simp [lexLeChars])
  | a :: as, b :: bs, c :: cs => by
    intro hab hbc
    rw [lexLeChars_cons_iff] at hab hbc ⊢
    rcases hab with hab | ⟨hab, hr1⟩
    · rcases hbc with hbc | ⟨hbc, _⟩
      · exact Or.inl (Nat.lt_trans hab hbc)
      · exact Or.inl (hbc ▸ hab)
    · rcases hbc with hbc | ⟨hbc, hr2⟩
      · exact Or.inl (hab ▸ hbc)
      · exact Or.inr ⟨hab.trans hbc, lexLeChars_trans as bs cs hr1 hr2⟩

theorem routeLe_iff (a b : Route) :
    routeLe a b = true ↔
      routePrecedence a.pattern < routePrecedence b.pattern ∨
        (routePrecedence a.pattern = routePrecedence b.pattern ∧
          lexLeChars a.pattern.data b.pattern.data = true) := by
  unfold routeLe strLexLe
  simp only []
  split_ifs with h1 h2
  · simp [h1]
  · simp only [Bool.false_eq_true, false_iff]
    push_neg
    constructor
    · omega
    · intro h
      omega
  · have heq : routePrecedence a.pattern = routePrecedence b.pattern := by omega
    simp [heq]

theorem routeLe_total (a b : Route) : routeLe a b = true ∨ routeLe b a = true := by
  rw [routeLe_iff, routeLe_iff]
  rcases Nat.lt_trichotomy (routePrecedence a.pattern) (routePrecedence b.pattern)
    with h | h | h
  · exact Or.inl (Or.inl h)
  · rcases lexLeChars_total a.pattern.data b.pattern.data with hr | hr
    · exact Or.inl (Or.inr ⟨h, hr⟩)
    · exact Or.inr (Or.inr ⟨h.symm, hr⟩)
  · exact Or.inr (Or.inl h)

theorem routeLe_trans (a b c : Route) (hab : routeLe a b = true)
    (hbc : routeLe b c = true) : routeLe a c = true := by
  rw [routeLe_iff] at hab hbc ⊢
  rcases hab with hab | ⟨hab, hr1⟩
  · rcases hbc with hbc | ⟨hbc, _⟩
    · exact Or.inl (Nat.lt_trans hab hbc)
    · exact Or.inl (hbc ▸ hab)
  · rcases hbc with hbc | ⟨hbc, hr2⟩
    · exact Or.inl (hab ▸ hbc)
    · exact Or.inr ⟨hab.trans hbc, lexLeChars_trans _ _ _ hr1 hr2⟩

theorem mem_insertLe {α : Type} (le : α → α → Bool) (x y : α) :
    ∀ (l : List α), y ∈ insertLe le x l → y = x ∨ y ∈ l
  | [], h => by
    simp [insertLe] at h
    exact Or.inl h
  | a :: l, h => by
    rw [insertLe] at h
    split_ifs at h with hle
    · rcases List.mem_cons.mp h with h | h
      · rw [h]
        exact Or.inr (List.mem_cons_self a l)
      · rcases mem_insertLe le x y l h with h | h
        · exact Or.inl h
        · exact Or.inr (List.mem_cons_of_mem a h)
    · rcases List.mem_cons.mp h with h | h
      · exact Or.inl h
      · exact Or.inr h

theorem pairwise_insertLe {α : Type} (le : α → α → Bool)
    (total : ∀ a b, le a b = true ∨ le b a = true)
    (trans : ∀ a b c, le a b = true → le b c = true → le a c = true)
    (x : α) :
    ∀ (l : List α), List.Pairwise (fun a b => le a b = true) l →
      List.Pairwise (fun a b => le a b = true) (insertLe le x l)
  | [], _ => by simp [insertLe]
  | a :: l, h => by
    rw [insertLe]
    rcases List.pairwise_cons.mp h with ⟨ha, hl⟩
    split_ifs with hle
    · refine List.pairwise_cons.mpr ⟨?_, pairwise_insertLe le total trans x l hl⟩
      intro b hb
      rcases mem_insertLe le x b l hb with rfl | hb
      · exact hle
      · exact ha b hb
    · have hxa : le x a = true := by
        rcases total a x with h1 | h1
        · exact absurd h1 hle
        · exact h1
      refine List.pairwise_cons.mpr ⟨?_, h⟩
      intro b hb
      rcases List.mem_cons.mp hb with rfl | hb
      · exact hxa
      · exact trans x a b hxa (ha b hb)

theorem mem_stableSortBy_aux {α : Type} (le : α → α → Bool) (y : α) :
    ∀ (l acc : List α),
      y ∈ l.foldl (fun acc x => insertLe le x acc) acc → y ∈ acc ∨ y ∈ l
  | [], acc, h => Or.inl h
  | x :: l, acc, h => by
    rcases mem_stableSortBy_aux le y l (insertLe le x acc) h with h1 | h1
    · rcases mem_insertLe le x y acc h1 with heq | h1
      · rw [heq]
        exact Or.inr (List.mem_cons_self x l)
      · exact Or.inl h1
    · exact Or.inr (List.mem_cons_of_mem x h1)

theorem mem_stableSortBy {α : Type} (le : α → α → Bool) (y : α) (l : List α)
    (h : y ∈ stableSortBy le l) : y ∈ l := by
  rcases mem_stableSortBy_aux le y l [] h with h1 | h1
  · simp at h1
  · exact h1

theorem pairwise_stableSortBy_aux {α : Type} (le : α → α → Bool)
    (total : ∀ a b, le a b = true ∨ le b a = true)
    (trans : ∀ a b c, le a b = true → le b c = true → le a c = true) :
    ∀ (l acc : List α), List.Pairwise (fun a b => le a b = true) acc →
      List.Pairwise (fun a b => le a b = true)
        (l.foldl (fun acc x => insertLe le x acc) acc)
  | [], _, hacc => hacc
  | x :: l, acc, hacc =>
    pairwise_stableSortBy_aux le total trans l (insertLe le x acc)
      (pairwise_insertLe le total trans x acc hacc)

theorem pairwise_stableSortBy {α : Type} (le : α → α → Bool)
    (total : ∀ a b, le a b = true ∨ le b a = true)
    (trans : ∀ a b c, le a b = true → le b c = true → le a c = true)
    (l : List α) :
    List.Pairwise (fun a b => le a b = true) (stableSortBy le l) :=
  pairwise_stableSortBy_aux le total trans l [] List.Pairwise.nil

theorem assocGet_map_set_ne {α : Type} (k pat : String) (v : α) (hne : pat ≠ k) :
    ∀ (m : List (String × α)),
      assocGet pat (m.map (fun p => if p.1 = k then (k, v) else p)) = assocGet pat m
  | [] => rfl
  | p :: m => by
    by_cases hp : p.1 = k
    · rw [List.map_cons, if_pos hp, assocGet, assocGet,
        if_neg (by simp only [hp]; exact hne), if_neg (fun h => hne (h.trans hp))]
      exact assocGet_map_set_ne k pat v hne m
    · rw [List.map_cons, if_neg hp, assocGet, assocGet]
      by_cases hbe : pat = p.1
      · rw [if_pos hbe, if_pos hbe]
      · rw [if_neg hbe, if_neg hbe]
        exact assocGet_map_set_ne k pat v hne m

theorem assocGet_map_set_eq {α : Type} (k : String) (v : α) :
    ∀ (m : List (String × α)), m.any (fun p => p.1 = k) = true →
      assocGet k (m.map (fun p => if p.1 = k then (k, v) else p)) = some v
  | [], h => by simp at h
  | p :: m, h => by
    by_cases hp : p.1 = k
    · rw [List.map_cons, if_pos hp, assocGet, if_pos rfl]
    · have hm : m.any (fun p => p.1 = k) = true := by
        rcases List.any_eq_true.mp h with ⟨q, hq, hqk⟩
        rcases List.mem_cons.mp hq with heq | hq
        · simp only [decide_eq_true_eq] at hqk
          exact absurd (heq ▸ hqk) hp
        · exact List.any_eq_true.mpr ⟨q, hq, hqk⟩
      rw [List.map_cons, if_neg hp, assocGet, if_neg (fun h => hp h.symm)]
      exact assocGet_map_set_eq k v m hm

theorem assocGet_append_single_ne {α : Type} (k pat : String) (v : α) (hne : pat ≠ k) :
    ∀ (m : List (String × α)), assocGet pat (m ++ [(k, v)]) = assocGet pat m
  | [] => by
    simp [assocGet, hne]
  | p :: m => by
    rw [List.cons_append, assocGet, assocGet]
    by_cases hbe : pat = p.1
    · rw [if_pos hbe, if_pos hbe]
    · rw [if_neg hbe, if_neg hbe]
      exact assocGet_append_single_ne k pat v hne m

theorem assocGet_eq_none_of_not_any {α : Type} (k : String) :
    ∀ (m : List (String × α)), ¬ m.any (fun p => p.1 = k) = true →
      assocGet k m = none
  | [], _ => rfl
  | p :: m, h => by
    have hp : ¬ p.1 = k := by
      intro heq
      exact h (by simp [List.any_cons, heq])
    have hm : ¬ m.any (fun p => p.1 = k) = true := by
      intro hm
      exact h (by simp [List.any_cons, hm])
    rw [assocGet, if_neg (fun h => hp h.symm)]
    exact assocGet_eq_none_of_not_any k m hm

theorem assocGet_append_single_eq {α : Type} (k : String) (v : α)
    (m : List (String × α)) (hm : assocGet k m = none) :
    assocGet k (m ++ [(k, v)]) = some v := by
  induction m with
  | nil => simp [assocGet]
  | cons p m ih =>
    rw [assocGet] at hm
    rw [List.cons_append, assocGet]
    by_cases hbe : k = p.1
    · rw [if_pos hbe] at hm
      exact absurd hm (by simp)
    · rw [if_neg hbe] at hm
      rw [if_neg hbe]
      exact ih hm

/-- `Map.set` / property-assignment semantics of `assocSet` at the level
of `assocGet`. -/
theorem assocSet_get {α : Type} (m : List (String × α)) (k pat : String) (v : α) :
    assocGet pat (assocSet m k v) = if pat = k then some v else assocGet pat m := by
  unfold assocSet
  by_cases hpk : pat = k
  · rw [if_pos hpk]
    subst hpk
    split_ifs with hany
    · exact assocGet_map_set_eq pat v m hany
    · exact assocGet_append_single_eq pat v m (assocGet_eq_none_of_not_any pat m hany)
  · rw [if_neg hpk]
    split_ifs with hany
    · exact assocGet_map_set_ne k pat v hpk m
    · exact assocGet_append_single_ne k pat v hpk m

theorem snd_mem_of_mem_enumFrom {α : Type} (p : Nat × α) :
    ∀ (n : Nat) (l : List α), p ∈ List.enumFrom n l → p.2 ∈ l
  | _, [], h => absurd h (List.not_mem_nil p)
  | n, a :: l, h => by
    rw [List.enumFrom] at h
    rcases List.mem_cons.mp h with h | h
    · rw [h]
      exact List.mem_cons_self a l
    · exact List.mem_cons_of_mem a (snd_mem_of_mem_enumFrom p (n + 1) l h)

theorem snd_mem_of_mem_enum {α : Type} (p : Nat × α) (l : List α)
    (h : p ∈ l.enum) : p.2 ∈ l :=
  snd_mem_of_mem_enumFrom p 0 l h

theorem strStartsWith_iff (s p : String) :
    strStartsWith s p = true ↔ ∃ t, s.data = p.data ++ t := by
  unfold strStartsWith
  exact listStartsWith_iff s.data p.data

theorem matchSegs_self_isSome : ∀ (l : List String) (ps : Params),
    (matchSegs l l ps).isSome = true
  | [], ps => rfl
  | pp :: rest, ps => by
    rw [matchSegs]
    by_cases h1 : strEndsWith pp "+" = true
    · rw [if_pos h1]
      simp [List.isEmpty]
    · rw [if_neg h1]
      by_cases h2 : strEndsWith pp "*" = true
      · rw [if_pos h2]
        simp
      · rw [if_neg h2]
        by_cases h3 : strStartsWith pp ":" = true
        · rw [if_pos h3]
          exact matchSegs_self_isSome rest _
        · rw [if_neg h3]
          show (if pp = pp then matchSegs rest rest ps else none).isSome = true
          rw [if_pos rfl]
          exact matchSegs_self_isSome rest ps

theorem matchPattern_self_isSome (u : String) : (matchPattern u u).isSome = true :=
  matchSegs_self_isSome (urlSegments u) []

theorem buildParentMap_aux_spec (pat : String) (i : Nat) :
    ∀ (l : List (Nat × Route)) (m : List (String × Nat)),
      assocGet pat (l.foldl (fun m ir =>
        if ir.2.pattern = "/" then m
        else if isIndexFileName (pathBasename ir.2.filePath) then m
        else assocSet m ir.2.pattern ir.1) m) = some i →
      assocGet pat m = some i ∨
        ∃ r, (i, r) ∈ l ∧ isIndexFileName (pathBasename r.filePath) = false ∧
          r.pattern = pat ∧ pat ≠ "/"
  | [], m, h => Or.inl h
  | jr :: l, m, h => by
    rw [List.foldl_cons] at h
    rcases buildParentMap_aux_spec pat i l _ h with h1 | ⟨r, hr, hidx, hpat, hroot⟩
    · split_ifs at h1 with hroot hidx
      · exact Or.inl h1
      · exact Or.inl h1
      · rw [assocSet_get] at h1
        split_ifs at h1 with hpk
        · have heq : jr.1 = i := Option.some.inj h1
          refine Or.inr ⟨jr.2, ?_, ?_, hpk.symm, ?_⟩
          · rw [← heq]
            exact List.mem_cons_self jr l
          · simp only [Bool.not_eq_true] at hidx
            exact hidx
          · rw [hpk]
            exact hroot
        · exact Or.inl h1
    · exact Or.inr ⟨r, List.mem_cons_of_mem jr hr, hidx, hpat, hroot⟩

/-- Every binding of the parent map points at a non-index, non-root route
of the flat list carrying exactly the bound pattern. -/
theorem buildParentMap_spec (flat : List Route) (pat : String) (i : Nat)
    (h : assocGet pat (buildParentMap flat) = some i) :
    ∃ r, (i, r) ∈ flat.enum ∧ isIndexFileName (pathBasename r.filePath) = false ∧
      r.pattern = pat ∧ pat ≠ "/" := by
  rcases buildParentMap_aux_spec pat i flat.enum [] h with h1 | h1
  · exact absurd h1 (by simp [assocGet])
  · exact h1

theorem matchSegs_eq_claim : ∀ (pat url : List String) (ps : Params),
    (∀ s ∈ pat, SegTokenWf s) → matchSegs pat url ps = claimMatchSegs pat url ps
  | [], url, ps, _ => rfl
  | pp :: rest, url, ps, hwf => by
    have hpp : SegTokenWf pp := hwf pp (List.mem_cons_self pp rest)
    have hrest : ∀ s ∈ rest, SegTokenWf s :=
      fun s hs => hwf s (List.mem_cons_of_mem pp hs)
    show (if strEndsWith pp "+" = true then
        if url.isEmpty then none
        else some (assocSet ps (strSlice1Neg1 pp) (ParamVal.list url))
      else if strEndsWith pp "*" = true then
        some (assocSet ps (strSlice1Neg1 pp) (ParamVal.list url))
      else if strStartsWith pp ":" = true then
        match url with
        | [] => none
        | u :: url2 => matchSegs rest url2 (assocSet ps (strDrop pp 1) (ParamVal.str u))
      else
        match url with
        | [] => none
        | u :: url2 => if u = pp then matchSegs rest url2 ps else none) =
      (if strStartsWith pp ":" = true ∧ strEndsWith pp "+" = true then
        if url.isEmpty then none
        else some (assocSet ps (strSlice1Neg1 pp) (ParamVal.list url))
      else if strStartsWith pp ":" = true ∧ strEndsWith pp "*" = true then
        some (assocSet ps (strSlice1Neg1 pp) (ParamVal.list url))
      else if strStartsWith pp ":" = true then
        match url with
        | [] => none
        | u :: url2 => claimMatchSegs rest url2 (assocSet ps (strDrop pp 1) (ParamVal.str u))
      else
        match url with
        | [] => none
        | u :: url2 => if u = pp then claimMatchSegs rest url2 ps else none)
    by_cases h1 : strEndsWith pp "+" = true
    · have hc1 : strStartsWith pp ":" = true ∧ strEndsWith pp "+" = true :=
        ⟨hpp.1 h1, h1⟩
      rw [if_pos h1, if_pos hc1]
    · have hnc1 : ¬ (strStartsWith pp ":" = true ∧ strEndsWith pp "+" = true) :=
        fun hc => h1 hc.2
      rw [if_neg h1, if_neg hnc1]
      by_cases h2 : strEndsWith pp "*" = true
      · have hc2 : strStartsWith pp ":" = true ∧ strEndsWith pp "*" = true :=
          ⟨hpp.2 h2, h2⟩
        rw [if_pos h2, if_pos hc2]
      · have hnc2 : ¬ (strStartsWith pp ":" = true ∧ strEndsWith pp "*" = true) :=
          fun hc => h2 hc.2
        rw [if_neg h2, if_neg hnc2]
        by_cases h3 : strStartsWith pp ":" = true
        · rw [if_pos h3, if_pos h3]
          cases url with
          | nil => rfl
          | cons u url => exact matchSegs_eq_claim rest url _ hrest
        · rw [if_neg h3, if_neg h3]
          cases url with
          | nil => rfl
          | cons u url =>
            show (if u = pp then matchSegs rest url ps else none) =
              (if u = pp then claimMatchSegs rest url ps else none)
            by_cases hu : u = pp
            · rw [if_pos hu, if_pos hu]
              exact matchSegs_eq_claim rest url ps hrest
            · rw [if_neg hu, if_neg hu]

/-- The page matcher's direct match agrees with the spec's walk on every
pattern whose `+`/`*` suffixes sit on `:`-tokens. -/
theorem matchPattern_eq_claim (url pattern : String)
    (hwf : ∀ s ∈ urlSegments pattern, SegTokenWf s) :
    matchPattern url pattern = claimMatchPattern url pattern :=
  matchSegs_eq_claim (urlSegments pattern) (urlSegments url) [] hwf

theorem matchRouteList_eq_amended : ∀ (url : String) (routes : List Route),
    matchRouteList url routes = claimMatchRouteAmended url routes
  | _, [] => rfl
  | url, route :: rest => by
    rw [matchRouteList, claimMatchRouteAmended]
    have hrec := matchRouteList_eq_amended url rest
    by_cases hch : route.children.length > 0
    · rw [if_pos hch, if_pos hch]
      cases hm : matchPattern url route.pattern with
      | some p => rfl
      | none =>
        have hne : ¬ url = route.pattern := by
          intro heq
          have hs := matchPattern_self_isSome url
          rw [heq] at hs hm
          rw [hm] at hs
          exact absurd hs (by simp)
        by_cases hpre :
            strStartsWith url (if route.pattern = "/" then "/" else route.pattern ++ "/") = true
        · rw [if_pos (Or.inl hpre), if_pos hpre]
          cases matchChildrenList url route.pattern route.children with
          | some r => rfl
          | none => exact hrec
        · rw [if_neg (fun hc => hc.elim hpre hne), if_neg hpre]
          exact hrec
    · rw [if_neg hch, if_neg hch]
      cases hm : matchPattern url route.pattern with
      | some p => rfl
      | none => exact hrec

theorem flattenParams_assocSet (ps : Params) (k : String) (v : ParamVal) :
    flattenParams (assocSet ps k v) = assocSet (flattenParams ps) k (flattenParam v) := by
  unfold assocSet flattenParams
  have hany : (ps.map (fun kv => (kv.1, flattenParam kv.2))).any (fun p => p.1 = k) =
      ps.any (fun p => p.1 = k) := by
    induction ps with
    | nil => rfl
    | cons p ps ih => simp [List.any_cons, ih]
  rw [hany]
  split_ifs with h
  · rw [List.map_map, List.map_map]
    refine List.map_congr_left ?_
    intro p _
    by_cases hp : p.1 = k
    · simp [hp]
    · simp [hp]
  · rw [List.map_append]
    rfl

theorem apiMatchSegs_eq_flatten : ∀ (pat url : List String) (ps : Params),
    (∀ s ∈ pat, SegApiWf s) →
      apiMatchSegs pat url (flattenParams ps) = (matchSegs pat url ps).map flattenParams
  | [], url, ps, _ => by
    cases url with
    | nil => rfl
    | cons u url => rfl
  | seg :: rest, url, ps, hwf => by
    have hseg : SegApiWf seg := hwf seg (List.mem_cons_self seg rest)
    have hrest : ∀ s ∈ rest, SegApiWf s :=
      fun s hs => hwf s (List.mem_cons_of_mem seg hs)
    show (if strStartsWith seg ":" = true ∧ strEndsWith seg "+" = true then
        if url.isEmpty then none
        else some (assocSet (flattenParams ps) (strSlice1Neg1 seg) (joinWith "/" url))
      else if strStartsWith seg ":" = true then
        match url with
        | [] => none
        | u :: url2 =>
          apiMatchSegs rest url2 (assocSet (flattenParams ps) (strDrop seg 1) u)
      else
        match url with
        | [] => none
        | u :: url2 => if seg = u then apiMatchSegs rest url2 (flattenParams ps) else none) =
      (Option.map flattenParams
        (if strEndsWith seg "+" = true then
          if url.isEmpty then none
          else some (assocSet ps (strSlice1Neg1 seg) (ParamVal.list url))
        else if strEndsWith seg "*" = true then
          some (assocSet ps (strSlice1Neg1 seg) (ParamVal.list url))
        else if strStartsWith seg ":" = true then
          match url with
          | [] => none
          | u :: url2 => matchSegs rest url2 (assocSet ps (strDrop seg 1) (ParamVal.str u))
        else
          match url with
          | [] => none
          | u :: url2 => if u = seg then matchSegs rest url2 ps else none))
    by_cases h1 : strEndsWith seg "+" = true
    · have hc1 : strStartsWith seg ":" = true ∧ strEndsWith seg "+" = true :=
        ⟨hseg.1 h1, h1⟩
      rw [if_pos h1, if_pos hc1]
      cases url with
      | nil => rfl
      | cons u url =>
        show some (assocSet (flattenParams ps) (strSlice1Neg1 seg) (joinWith "/" (u :: url))) =
          Option.map flattenParams
            (some (assocSet ps (strSlice1Neg1 seg) (ParamVal.list (u :: url))))
        simp only [Option.map]
        rw [flattenParams_assocSet]
        rfl
    · have hnc1 : ¬ (strStartsWith seg ":" = true ∧ strEndsWith seg "+" = true) :=
        fun hc => h1 hc.2
      have hns : ¬ strEndsWith seg "*" = true := by
        rw [hseg.2]
        simp
      rw [if_neg h1, if_neg hnc1, if_neg hns]
      by_cases h3 : strStartsWith seg ":" = true
      · rw [if_pos h3, if_pos h3]
        cases url with
        | nil => rfl
        | cons u url =>
          have := apiMatchSegs_eq_flatten rest url (assocSet ps (strDrop seg 1) (ParamVal.str u)) hrest
          rw [flattenParams_assocSet] at this
          exact this
      · rw [if_neg h3, if_neg h3]
        cases url with
        | nil => rfl
        | cons u url =>
          show (if seg = u then apiMatchSegs rest url (flattenParams ps) else none) =
            Option.map flattenParams (if u = seg then matchSegs rest url ps else none)
          by_cases hu : u = seg
          · rw [if_pos hu, if_pos hu.symm]
            exact apiMatchSegs_eq_flatten rest url ps hrest
          · rw [if_neg hu, if_neg (fun h => hu h.symm)]
            rfl

/-- The endpoint matcher's per-pattern match is the page matcher's match
with list bindings slash-joined, on any pattern with no `*` token and
`+` only on `:`-tokens. -/
theorem apiMatchPattern_eq_flatten (pattern pathname : String)
    (hwf : ∀ s ∈ urlSegments pattern, SegApiWf s) :
    apiMatchPattern pattern pathname =
      (matchPattern pathname pattern).map flattenParams :=
  apiMatchSegs_eq_flatten (urlSegments pattern) (urlSegments pathname) [] hwf

theorem httpMethods_lower : ∀ m ∈ httpMethods, strLower m = m ∧ m ≠ "" := by
  decide

theorem matchApiRouteAux_eq_claim : ∀ (pathname method : String) (routes : List ApiRoute),
    (∀ r ∈ routes, ∀ m, r.method = some m → m ∈ httpMethods) →
    (∀ r ∈ routes, ∀ s ∈ urlSegments r.pattern, SegApiWf s) →
      matchApiRouteAux pathname (strLower method) routes =
        claimMatchEndpoint pathname method routes
  | _, _, [], _, _ => rfl
  | pathname, method, route :: rest, hmeth, hwf => by
    have hrec := matchApiRouteAux_eq_claim pathname method rest
      (fun r hr => hmeth r (List.mem_cons_of_mem route hr))
      (fun r hr => hwf r (List.mem_cons_of_mem route hr))
    rw [matchApiRouteAux, claimMatchEndpoint]
    have hpat := apiMatchPattern_eq_flatten route.pattern pathname
      (hwf route (List.mem_cons_self route rest))
    cases hmr : route.method with
    | none =>
      simp only [hmr, Bool.false_eq_true, if_false]
      rw [hpat]
      cases matchPattern pathname route.pattern with
      | some p => rfl
      | none => exact hrec
    | some m =>
      rcases httpMethods_lower m (hmeth route (List.mem_cons_self route rest) m hmr)
        with ⟨hml, hmne⟩
      have hskip : ((m ≠ "" && m ≠ strLower method) = true) ↔
          strLower m ≠ strLower method := by
        rw [hml]
        simp [hmne]
      simp only [hmr, decide_eq_true_eq]
      by_cases hsk : strLower m ≠ strLower method
      · rw [if_pos (hskip.mpr hsk), if_pos hsk]
        exact hrec
      · rw [if_neg (fun hb => hsk (hskip.mp hb)), if_neg hsk]
        rw [hpat]
        cases matchPattern pathname route.pattern with
        | some p => rfl
        | none => exact hrec

theorem slash_data : ("/" : String).data = ['/'] := rfl

theorem append_slash_seg_data (pp seg : String) :
    (pp ++ "/" ++ seg).data = (pp.data ++ ['/']) ++ seg.data := by
  rw [String.data_append, String.data_append, slash_data]

theorem strDrop_prefix (p t : List Char) :
    strDrop ⟨p ++ t⟩ p.length = ⟨t⟩ := by
  unfold strDrop
  exact congrArg String.mk (List.drop_left p t)

/-- The nesting child condition of `buildRouteTree`, characterized the way
the spec words it: the child pattern is the parent pattern itself (index
child, relative `""`), or the parent pattern plus `/` plus one further
slash-free piece. -/
theorem childRelPattern_iff (pp pat rel : String) :
    childRelPattern pp pat = some rel ↔
      (pat = pp ∧ rel = "") ∨
        (∃ seg, strContainsChar seg '/' = false ∧ pat = pp ++ "/" ++ seg ∧ rel = seg) := by
  have hlen : ∀ seg : String, pat = pp ++ "/" ++ seg → pat ≠ pp := by
    intro seg heq hpp
    have h1 : pat.data = (pp.data ++ ['/']) ++ seg.data := by
      rw [heq]
      exact append_slash_seg_data pp seg
    rw [hpp] at h1
    have h2 := congrArg List.length h1
    simp at h2
  have hdata_len : strLen (pp ++ "/") = (pp.data ++ ['/']).length := by
    unfold strLen
    rw [String.data_append, slash_data]
  unfold childRelPattern
  by_cases hidx : pat = pp
  · rw [if_pos hidx]
    constructor
    · intro h
      exact Or.inl ⟨hidx, (Option.some.inj h).symm⟩
    · rintro (⟨_, hrel⟩ | ⟨seg, _, hseq, _⟩)
      · rw [hrel]
      · exact absurd hidx (hlen seg hseq)
  · rw [if_neg hidx]
    by_cases hcond : strStartsWith pat (pp ++ "/") = true ∧
        ¬ strContainsChar (strDrop pat (strLen (pp ++ "/"))) '/' = true
    · rw [if_pos hcond]
      rcases (strStartsWith_iff pat (pp ++ "/")).mp hcond.1 with ⟨t, ht⟩
      have hdata : pat.data = (pp.data ++ ['/']) ++ t := by
        rw [ht, String.data_append, slash_data]
      have hdrop : strDrop pat (strLen (pp ++ "/")) = ⟨t⟩ := by
        have hpat2 : pat = ⟨(pp.data ++ ['/']) ++ t⟩ := String.ext hdata
        rw [hpat2, hdata_len]
        exact strDrop_prefix (pp.data ++ ['/']) t
      constructor
      · intro h
        refine Or.inr ⟨⟨t⟩, ?_, ?_, ?_⟩
        · have h2 := hcond.2
          rw [hdrop] at h2
          exact Bool.not_eq_true _ ▸ Bool.of_not_eq_true h2
        · refine String.ext ?_
          rw [hdata, append_slash_seg_data]
        · rw [← Option.some.inj h, hdrop]
      · rintro (⟨hp, _⟩ | ⟨seg, hsc, hseq, hrel⟩)
        · exact absurd hp hidx
        · have hdata2 : pat.data = (pp.data ++ ['/']) ++ seg.data := by
            rw [hseq]
            exact append_slash_seg_data pp seg
          have hts : t = seg.data := by
            have := hdata ▸ hdata2
            exact List.append_cancel_left this
          rw [hdrop, hrel]
          refine congrArg some (String.ext ?_)
          rw [hts]
    · rw [if_neg hcond]
      constructor
      · intro h
        exact absurd h (by simp)
      · rintro (⟨hp, _⟩ | ⟨seg, hsc, hseq, hrel⟩)
        · exact absurd hp hidx
        · exfalso
          apply hcond
          have hdata2 : pat.data = (pp.data ++ ['/']) ++ seg.data := by
            rw [hseq]
            exact append_slash_seg_data pp seg
          have hsw : strStartsWith pat (pp ++ "/") = true := by
            rw [strStartsWith_iff]
            refine ⟨seg.data, ?_⟩
            rw [hdata2, String.data_append, slash_data]
          have hdrop : strDrop pat (strLen (pp ++ "/")) = seg := by
            have hpat2 : pat = ⟨(pp.data ++ ['/']) ++ seg.data⟩ := String.ext hdata2
            rw [hpat2, hdata_len]
            have := strDrop_prefix (pp.data ++ ['/']) seg.data
            rw [this]
          refine ⟨hsw, ?_⟩
          rw [hdrop, hsc]
          simp

/-- The source's suffix-first scorer agrees with the spec's token-shape
scorer on well-formed segments. -/
theorem routePrecedence_eq_claim (pattern : String)
    (h : ∀ seg ∈ urlSegments pattern, SegTokenWf seg) :
    routePrecedence pattern = claimPrecedence pattern := by
  unfold urlSegments at h
  show (List.map (fun ip =>
      if strEndsWith ip.2 "+" then 10000 + ip.1
      else if strEndsWith ip.2 "*" then 20000 + ip.1
      else if strStartsWith ip.2 ":" then 100 + ip.1
      else 0)
    ((strSplit pattern '/').filter (fun p => p ≠ "")).enum).sum =
    (List.map (fun ip => claimSegScore ip.1 ip.2)
      ((strSplit pattern '/').filter (fun p => p ≠ "")).enum).sum
  refine congrArg List.sum (List.map_congr_left ?_)
  intro ip hip
  have hseg : SegTokenWf ip.2 := h ip.2 (snd_mem_of_mem_enum ip _ hip)
  unfold claimSegScore
  by_cases h1 : strEndsWith ip.2 "+" = true
  · rw [if_pos h1, if_pos ⟨hseg.1 h1, h1⟩]
  · have hnc1 : ¬ (strStartsWith ip.2 ":" = true ∧ strEndsWith ip.2 "+" = true) :=
      fun hc => h1 hc.2
    rw [if_neg h1, if_neg hnc1]
    by_cases h2 : strEndsWith ip.2 "*" = true
    · rw [if_pos h2, if_pos ⟨hseg.2 h2, h2⟩]
    · have hnc2 : ¬ (strStartsWith ip.2 ":" = true ∧ strEndsWith ip.2 "*" = true) :=
        fun hc => h2 hc.2
      rw [if_neg h2, if_neg hnc2]

/-- `buildRouteTree` emits a sorted top level, and sorted `children` on
every route it leaves at top level. -/
theorem buildRouteTree_sorted (flat : List Route) :
    List.Pairwise (fun a b => routeLe a b = true) (buildRouteTree flat) ∧
      ∀ r ∈ buildRouteTree flat,
        List.Pairwise (fun a b => routeLe a b = true) r.children := by
  unfold buildRouteTree
  constructor
  · exact pairwise_stableSortBy routeLe routeLe_total routeLe_trans _
  · intro r hr
    have hr2 := mem_stableSortBy routeLe r _ hr
    rcases List.mem_filterMap.mp hr2 with ⟨ir, hir, hfr⟩
    simp only [] at hfr
    split_ifs at hfr with h1 h2 h3 h4
    · rw [← Option.some.inj hfr]
      exact pairwise_stableSortBy routeLe routeLe_total routeLe_trans _
    · rw [← Option.some.inj hfr]
      have hnil := List.length_eq_zero.mp (by omega :
        (childrenOfIdx flat (buildParentMap flat) (flat.length + 1) ir.1).length = 0)
      rw [hnil]
      exact List.Pairwise.nil
    · rw [← Option.some.inj hfr]
      exact pairwise_stableSortBy routeLe routeLe_total routeLe_trans _
    · rw [← Option.some.inj hfr]
      have hnil := List.length_eq_zero.mp (by omega : ir.2.children.length = 0)
      rw [hnil]
      exact List.Pairwise.nil

theorem assocGet_filter_ne (dir : String) :
    ∀ (m : List (String × Nat)),
      assocGet dir (m.filter (fun p => p.1 ≠ dir)) = none
  | [] => rfl
  | p :: m => by
    by_cases hp : p.1 = dir
    · rw [List.filter_cons, if_neg (by simp [hp])]
      exact assocGet_filter_ne dir m
    · rw [List.filter_cons, if_pos (by simp [hp]), assocGet,
        if_neg (fun h => hp h.symm)]
      exact assocGet_filter_ne dir m

theorem filter_ne_of_get_none (dir : String) :
    ∀ (m : List (String × Nat)), assocGet dir m = none →
      m.filter (fun p => p.1 ≠ dir) = m
  | [], _ => rfl
  | p :: m, h => by
    rw [assocGet] at h
    by_cases hp : dir = p.1
    · rw [if_pos hp] at h
      exact absurd h (by simp)
    · rw [if_neg hp] at h
      rw [List.filter_cons, if_pos (by simp; exact fun heq => hp heq.symm)]
      rw [filter_ne_of_get_none dir m h]

theorem bracket_data (name : String) :
    ("[" ++ name ++ "]").data = '[' :: (name.data ++ [']']) := by
  rw [String.data_append, String.data_append]
  simp

theorem catchall_data (name : String) :
    ("[..." ++ name ++ "]").data =
      '[' :: '.' :: '.' :: '.' :: (name.data ++ [']']) := by
  rw [String.data_append, String.data_append]
  simp

theorem optcatchall_data (name : String) :
    ("[[..." ++ name ++ "]]").data =
      '[' :: '[' :: '.' :: '.' :: '.' :: ((name.data ++ [']']) ++ [']']) := by
  rw [String.data_append, String.data_append]
  simp

theorem matchCatchAllSeg_bracket (name : String) (h1 : name.data ≠ [])
    (h2 : name.data.all isWordChar = true) :
    matchCatchAllSeg ("[..." ++ name ++ "]") = some name := by
  unfold matchCatchAllSeg
  rw [catchall_data]
  have hsw : listStartsWith
      ('[' :: '.' :: '.' :: '.' :: (name.data ++ [']'])) ['[', '.', '.', '.'] = true := by
    simp [listStartsWith]
  rw [if_pos hsw]
  show (match splitLastChar (name.data ++ [']']) with
    | some (inner, ']') =>
      if inner ≠ [] ∧ inner.all isWordChar then some (String.mk inner) else none
    | _ => none) = some name
  rw [splitLastChar_append]
  show (if name.data ≠ [] ∧ name.data.all isWordChar then
    some (String.mk name.data) else none) = some name
  rw [if_pos ⟨h1, h2⟩]

theorem matchDynamicSeg_bracket (name : String) (h1 : name.data ≠ [])
    (h2 : name.data.all isWordChar = true) :
    matchDynamicSeg ("[" ++ name ++ "]") = some name := by
  unfold matchDynamicSeg
  rw [bracket_data]
  show (match splitLastChar (name.data ++ [']']) with
    | some (inner, ']') =>
      if inner ≠ [] ∧ inner.all isWordChar then some (String.mk inner) else none
    | _ => none) = some name
  rw [splitLastChar_append]
  show (if name.data ≠ [] ∧ name.data.all isWordChar then
    some (String.mk name.data) else none) = some name
  rw [if_pos ⟨h1, h2⟩]

theorem matchOptCatchAllSeg_bracket (name : String) (h1 : name.data ≠ [])
    (h2 : name.data.all isWordChar = true) :
    matchOptCatchAllSeg ("[[..." ++ name ++ "]]") = some name := by
  unfold matchOptCatchAllSeg
  rw [optcatchall_data]
  have hsw : listStartsWith
      ('[' :: '[' :: '.' :: '.' :: '.' :: ((name.data ++ [']']) ++ [']']))
      ['[', '[', '.', '.', '.'] = true := by
    simp [listStartsWith]
  rw [if_pos hsw]
  show (match splitLastChar ((name.data ++ [']']) ++ [']']) with
    | some (mid, ']') =>
      match splitLastChar mid with
      | some (inner, ']') =>
        if inner ≠ [] ∧ inner.all isWordChar then some (String.mk inner) else none
      | _ => none
    | _ => none) = some name
  rw [splitLastChar_append]
  show (match splitLastChar (name.data ++ [']']) with
    | some (inner, ']') =>
      if inner ≠ [] ∧ inner.all isWordChar then some (String.mk inner) else none
    | _ => none) = some name
  rw [splitLastChar_append]
  show (if name.data ≠ [] ∧ name.data.all isWordChar then
    some (String.mk name.data) else none) = some name
  rw [if_pos ⟨h1, h2⟩]

theorem isWordChar_ne_dot (c : Char) (h : isWordChar c = true) : c ≠ '.' := by
  intro heq
  rw [heq] at h
  exact absurd h (by decide)

theorem isWordChar_ne_bracket (c : Char) (h : isWordChar c = true) : c ≠ '[' := by
  intro heq
  rw [heq] at h
  exact absurd h (by decide)

theorem matchCatchAllSeg_bracket_plain (name : String)
    (h2 : name.data.all isWordChar = true) :
    matchCatchAllSeg ("[" ++ name ++ "]") = none := by
  unfold matchCatchAllSeg
  rw [bracket_data]
  have hsw : listStartsWith ('[' :: (name.data ++ [']'])) ['[', '.', '.', '.'] = false := by
    cases hn : name.data with
    | nil =>
      simp [listStartsWith]
    | cons c cs =>
      have hc : isWordChar c = true := by
        rw [hn, List.all_cons] at h2
        exact Bool.and_elim_left h2
      simp [listStartsWith, isWordChar_ne_dot c hc]
  rw [if_neg (by rw [hsw]; simp)]

theorem matchOptCatchAllSeg_bracket_plain (name : String)
    (h2 : name.data.all isWordChar = true) :
    matchOptCatchAllSeg ("[" ++ name ++ "]") = none := by
  unfold matchOptCatchAllSeg
  rw [bracket_data]
  have hsw : listStartsWith ('[' :: (name.data ++ [']'])) ['[', '[', '.', '.', '.'] = false := by
    cases hn : name.data with
    | nil =>
      simp [listStartsWith]
    | cons c cs =>
      have hc : isWordChar c = true := by
        rw [hn, List.all_cons] at h2
        exact Bool.and_elim_left h2
      simp [listStartsWith, isWordChar_ne_bracket c hc]
  rw [if_neg (by rw [hsw]; simp)]

theorem matchCatchAllSeg_of_opt (name : String) :
    matchCatchAllSeg ("[[..." ++ name ++ "]]") = none := by
  unfold matchCatchAllSeg
  rw [optcatchall_data]
  have hsw : listStartsWith
      ('[' :: '[' :: '.' :: '.' :: '.' :: ((name.data ++ [']']) ++ [']']))
      ['[', '.', '.', '.'] = false := by
    simp [listStartsWith]
  rw [if_neg (by rw [hsw]; simp)]

theorem segToUrl_catchall (name : String) (h1 : name.data ≠ [])
    (h2 : name.data.all isWordChar = true) :
    segToUrl ("[..." ++ name ++ "]") = (":" ++ name ++ "+", some name) := by
  unfold segToUrl
  rw [matchCatchAllSeg_bracket name h1 h2]

theorem segToUrl_optional (name : String) (h1 : name.data ≠ [])
    (h2 : name.data.all isWordChar = true) :
    segToUrl ("[[..." ++ name ++ "]]") = (":" ++ name ++ "*", some name) := by
  unfold segToUrl
  rw [matchCatchAllSeg_of_opt name, matchOptCatchAllSeg_bracket name h1 h2]

theorem segToUrl_dynamic (name : String) (h1 : name.data ≠ [])
    (h2 : name.data.all isWordChar = true) :
    segToUrl ("[" ++ name ++ "]") = (":" ++ name, some name) := by
  unfold segToUrl
  rw [matchCatchAllSeg_bracket_plain name h2, matchOptCatchAllSeg_bracket_plain name h2,
    matchDynamicSeg_bracket name h1 h2]

theorem segToUrl_literal (seg : String) (hc : matchCatchAllSeg seg = none)
    (ho : matchOptCatchAllSeg seg = none) (hd : matchDynamicSeg seg = none) :
    segToUrl seg = (seg, none) := by
  unfold segToUrl
  rw [hc, ho, hd]

theorem apiSegToUrl_catchall (name : String) (h1 : name.data ≠ [])
    (h2 : name.data.all isWordChar = true) :
    apiSegToUrl ("[..." ++ name ++ "]") = ":" ++ name ++ "+" := by
  unfold apiSegToUrl
  rw [matchCatchAllSeg_bracket name h1 h2]

theorem apiSegToUrl_dynamic (name : String) (h1 : name.data ≠ [])
    (h2 : name.data.all isWordChar = true) :
    apiSegToUrl ("[" ++ name ++ "]") = ":" ++ name := by
  unfold apiSegToUrl
  rw [matchCatchAllSeg_bracket_plain name h2, matchDynamicSeg_bracket name h1 h2]

/-! ## Claim theorems -/

/-- Claim C1, as stated, is false on the code in two ways.  First,
`buildRouteTree` never sorts the `children` array of a route that itself
became a child — the removal loop (router.ts 198) skips child routes
before the per-route `children.sort` (router.ts 202) runs: with files
`a.vue`, `a/b.vue`, `a/b/[x].vue`, `a/b/c.vue`, the nested grandchild
array of `b` stays in scan order `[":x", "c"]`, although `"c"` has
strictly lower precedence score than `":x"` — not ascending by score.
Second, the score formula does not hold for every route pattern: the
derivable pattern `/a+` (from the file `a+.vue`) has a single literal
segment; the claimed formula scores a static segment 0, but the code's
suffix-based classifier (router.ts 232) scores it 10000 as a catch-all. -/
theorem C1_counterexample :
    ((buildRouteTree [fileToRoute "a.vue" "pages", fileToRoute "a/b.vue" "pages",
        fileToRoute "a/b/[x].vue" "pages", fileToRoute "a/b/c.vue" "pages"]).map
      (fun r => (r.pattern, r.children.map
        (fun c => (c.pattern, c.children.map (fun g => g.pattern))))) =
      [("/a", [("b", [":x", "c"])])] ∧
    routePrecedence "c" < routePrecedence ":x") ∧
    (fileToRoute "a+.vue" "pages").pattern = "/a+" ∧
    routePrecedence "/a+" = 10000 ∧
    claimPrecedence "/a+" = 0 := by
  refine ⟨⟨rfl, by decide⟩, rfl, by decide, by decide⟩

/-- Claim C1 amended: for route patterns whose `+`/`*` suffixes sit only
on `:`-tokens (which excludes literal segments from filenames themselves
ending in `+` or `*`, such as `/a+` from `a+.vue` — the code classifies
by suffix alone and scores those as catch-alls), the precedence score is
the claimed per-segment sum; `buildRouteTree` sorts the top-level list
and the `children` arrays of the routes that remain at top level
ascending by score with the lexicographic tiebreak (children arrays
nested deeper — of routes that themselves became children — keep
insertion order); and the flat routes {/about, /:id, /:slug+} come out as
[/about, /:id, /:slug+] for every scan order. -/
theorem C1_amended :
    (∀ pattern, (∀ seg ∈ urlSegments pattern, SegTokenWf seg) →
      routePrecedence pattern = claimPrecedence pattern) ∧
    (∀ flat, List.Pairwise (fun a b => routeLe a b = true) (buildRouteTree flat) ∧
      ∀ r ∈ buildRouteTree flat,
        List.Pairwise (fun a b => routeLe a b = true) r.children) ∧
    (∀ files ∈ [["about.vue", "[id].vue", "[...slug].vue"],
        ["about.vue", "[...slug].vue", "[id].vue"],
        ["[id].vue", "about.vue", "[...slug].vue"],
        ["[id].vue", "[...slug].vue", "about.vue"],
        ["[...slug].vue", "about.vue", "[id].vue"],
        ["[...slug].vue", "[id].vue", "about.vue"]],
      (scanPageRoutesList files "pages").map (fun r => r.pattern) =
        ["/about", "/:id", "/:slug+"]) :=
  ⟨routePrecedence_eq_claim, buildRouteTree_sorted, by decide⟩

/-- Witness for C1: the score equality evaluated at `/users/:id`, and top
level sortedness on a concrete scan. -/
theorem C1_witness :
    routePrecedence "/users/:id" = claimPrecedence "/users/:id" ∧
    List.Pairwise (fun a b => routeLe a b = true)
      (buildRouteTree [fileToRoute "about.vue" "pages"]) :=
  ⟨C1_amended.1 "/users/:id" (by decide),
   (C1_amended.2.1 [fileToRoute "about.vue" "pages"]).1⟩

/-- Claim C2, as stated, is false on the code: it classifies segments by
token shape, so the literal segment `a+` of the derivable pattern `/a+`
(from the file `a+.vue`) is static and must match by string equality —
but the code classifies by suffix (router.ts 328) and treats `a+` as a
catch-all, so `matchPattern "/b/x" "/a+"` succeeds where the claimed
walk rejects. -/
theorem C2_counterexample :
    (fileToRoute "a+.vue" "pages").pattern = "/a+" ∧
    (matchPattern "/b/x" "/a+").isSome = true ∧
    claimMatchPattern "/b/x" "/a+" = none := by
  refine ⟨rfl, rfl, rfl⟩

/-- Claim C2 amended: on route patterns whose `+`/`*` suffixes sit only
on `:`-tokens (which excludes literal segments from filenames themselves
ending in `+` or `*`, such as `/a+` from `a+.vue` — those the code
matches by suffix as catch-alls), the page matcher's direct match is
exactly the spec's walk: catch-all needs at least one remaining URL
segment and binds the rest as a list, optional catch-all binds the
possibly-empty rest, dynamic consumes exactly one segment of any content
as a scalar, static needs string equality, and without a catch-all the
segment counts must agree. -/
theorem C2_matcher_refines_spec :
    ∀ url pattern, (∀ seg ∈ urlSegments pattern, SegTokenWf seg) →
      matchPattern url pattern = claimMatchPattern url pattern :=
  fun url pattern h => matchPattern_eq_claim url pattern h

/-- Witness for C2 at a concrete URL and pattern with dynamic and
catch-all segments. -/
theorem C2_witness :
    matchPattern "/users/alice/posts/7" "/users/:id/:rest+" =
      claimMatchPattern "/users/alice/posts/7" "/users/:id/:rest+" :=
  C2_matcher_refines_spec "/users/alice/posts/7" "/users/:id/:rest+" (by decide)

/-- Claim C3, as stated, is false on the code: `matchRoute` enters a
route with children on a full *pattern match* (router.ts 265), not on
exact string equality of the normalized URL with the pattern.  For the
dynamic nested parent `/:uid` with an index child, URL `/alice` is not
string-equal to `/:uid`, so the claimed procedure would skip the children
and return the bare parent, but the code pattern-matches the parent and
returns the index child. -/
theorem C3_counterexample :
    (matchRoute "/alice" exNestedRoutes).map (fun r => r.1.filePath) =
      some "pages/[uid]/index.vue" ∧
    (claimMatchRouteExact (normalizeUrl "/alice") exNestedRoutes).map
      (fun r => r.1.filePath) = some "pages/[uid].vue" :=
  ⟨rfl, rfl⟩

/-- Claim C3 amended: for a route with children, `match` tests a full
pattern match of the normalized URL against the route's own pattern
first; on a match it attempts the children (an index child wins over the
bare parent) and otherwise returns the parent with its own params; if the
URL instead starts with the pattern plus `/` (root `/`), the children are
attempted directly and a successful child match returns immediately. -/
theorem C3_amended :
    (∀ url routes, matchRoute url routes = claimMatchRouteAmended (normalizeUrl url) routes) ∧
    (matchRoute "/alice" exNestedRoutes).map (fun r => r.1.filePath) =
      some "pages/[uid]/index.vue" :=
  ⟨fun url routes => matchRouteList_eq_amended (normalizeUrl url) routes, rfl⟩

/-- Claim C4: a parent-map binding always points at a non-index route
with the bound pattern; the child condition is exactly "parent pattern
plus `/` plus one further slash-free piece, or pattern equality (the
relative index child)"; and the users / users/index / users/[id] example
nests as claimed, while dropping the parent file leaves two independent
top-level routes. -/
theorem C4_nesting :
    (∀ flat pat i, assocGet pat (buildParentMap flat) = some i →
      ∃ r, (i, r) ∈ flat.enum ∧ isIndexFileName (pathBasename r.filePath) = false ∧
        r.pattern = pat ∧ pat ≠ "/") ∧
    (∀ pp pat rel, childRelPattern pp pat = some rel ↔
      (pat = pp ∧ rel = "") ∨
        (∃ seg, strContainsChar seg '/' = false ∧ pat = pp ++ "/" ++ seg ∧ rel = seg)) ∧
    (scanPageRoutesList ["users.vue", "users/index.vue", "users/[id].vue"] "pages").map
      (fun r => (r.pattern, r.children.map (fun c => c.pattern))) =
      [("/users", ["", ":id"])] ∧
    (scanPageRoutesList ["users/index.vue", "users/[id].vue"] "pages").map
      (fun r => (r.pattern, r.children.map (fun c => c.pattern))) =
      [("/users", []), ("/users/:id", [])] :=
  ⟨buildParentMap_spec, childRelPattern_iff, rfl, rfl⟩

/-- Witness for C4: the parent-map invariant evaluated on a concrete
one-file scan. -/
theorem C4_witness :
    ∃ r, (0, r) ∈ ([fileToRoute "users.vue" "pages"]).enum ∧
      isIndexFileName (pathBasename r.filePath) = false ∧
      r.pattern = "/users" ∧ "/users" ≠ "/" :=
  C4_nesting.1 [fileToRoute "users.vue" "pages"] "/users" 0 (by decide)

/-- Claim C5, as stated, is false on the code: the completion write of
`scanRoutes` (router.ts 51) runs even when the entry was invalidated
while the scan was in flight.  In the schedule scan-start, invalidate,
scan-completion, the entry is re-inserted with the original promise, and
the next scan returns it with no new filesystem walk — `invalidate` did
not cause the next scan to re-read the directory from disk. -/
theorem C5_counterexample :
    scanRoutesStep { cache := [], nextPromise := 0 } "pages" =
      (0, { cache := [("pages", 0)], nextPromise := 1 }, true) ∧
    invalidateRouteCache { cache := [("pages", 0)], nextPromise := 1 } "pages" =
      { cache := [], nextPromise := 1 } ∧
    scanRoutesResolve { cache := [], nextPromise := 1 } "pages" 0 =
      { cache := [("pages", 0)], nextPromise := 1 } ∧
    scanRoutesStep { cache := [("pages", 0)], nextPromise := 1 } "pages" =
      (0, { cache := [("pages", 0)], nextPromise := 1 }, false) := by
  refine ⟨rfl, rfl, rfl, rfl⟩

/-- Claim C5 amended: the cache step returns a cached promise unchanged
without a new walk; on a miss it records one fresh promise so that a
second call before resolution is handed the same promise with no second
walk; invalidation removes the entry and is the identity when nothing
was cached; the scan immediately following an invalidation starts a
fresh walk — but a scan that was in flight at invalidation time
re-inserts its cache entry on completion (router.ts 51), after which the
next scan returns that promise with no new walk instead of re-reading
the directory from disk. -/
theorem C5_cache_discipline :
    (∀ (s : CacheState) (dir : String) (pid : Nat),
      assocGet dir s.cache = some pid → scanRoutesStep s dir = (pid, s, false)) ∧
    (∀ (s : CacheState) (dir : String), assocGet dir s.cache = none →
      scanRoutesStep s dir =
        (s.nextPromise,
          { cache := assocSet s.cache dir s.nextPromise,
            nextPromise := s.nextPromise + 1 }, true) ∧
      scanRoutesStep (scanRoutesStep s dir).2.1 dir =
        ((scanRoutesStep s dir).1, (scanRoutesStep s dir).2.1, false)) ∧
    (∀ (s : CacheState) (dir : String),
      assocGet dir (invalidateRouteCache s dir).cache = none) ∧
    (∀ (s : CacheState) (dir : String), assocGet dir s.cache = none →
      invalidateRouteCache s dir = s) ∧
    (∀ (s : CacheState) (dir : String),
      (scanRoutesStep (invalidateRouteCache s dir) dir).2.2 = true) ∧
    (∀ (s : CacheState) (dir : String) (pid : Nat),
      scanRoutesStep (scanRoutesResolve s dir pid) dir =
        (pid, scanRoutesResolve s dir pid, false)) := by
  refine ⟨?_, ?_, ?_, ?_, ?_, ?_⟩
  · intro s dir pid h
    unfold scanRoutesStep
    rw [h]
  · intro s dir h
    have hstep : scanRoutesStep s dir =
        (s.nextPromise,
          { cache := assocSet s.cache dir s.nextPromise,
            nextPromise := s.nextPromise + 1 }, true) := by
      unfold scanRoutesStep
      rw [h]
    refine ⟨hstep, ?_⟩
    rw [hstep]
    unfold scanRoutesStep
    rw [show assocGet dir
        ({ cache := assocSet s.cache dir s.nextPromise,
           nextPromise := s.nextPromise + 1 } : CacheState).cache =
        some s.nextPromise by
      rw [assocSet_get]
      simp]
  · intro s dir
    exact assocGet_filter_ne dir s.cache
  · intro s dir h
    unfold invalidateRouteCache
    rw [filter_ne_of_get_none dir s.cache h]
  · intro s dir
    unfold scanRoutesStep
    rw [show assocGet dir (invalidateRouteCache s dir).cache = none from
      assocGet_filter_ne dir s.cache]
  · intro s dir pid
    unfold scanRoutesStep
    rw [show assocGet dir (scanRoutesResolve s dir pid).cache = some pid by
      unfold scanRoutesResolve
      rw [assocSet_get]
      simp]

/-- Witness for C5: a concrete cached state returns its promise without a
walk, and a concrete miss allocates one. -/
theorem C5_witness :
    scanRoutesStep { cache := [("pages", 0)], nextPromise := 1 } "pages" =
      (0, { cache := [("pages", 0)], nextPromise := 1 }, false) ∧
    invalidateRouteCache { cache := [], nextPromise := 0 } "pages" =
      { cache := [], nextPromise := 0 } :=
  ⟨C5_cache_discipline.1 { cache := [("pages", 0)], nextPromise := 1 } "pages" 0 rfl,
   C5_cache_discipline.2.2.2.1 { cache := [], nextPromise := 0 } "pages" rfl⟩

/-- Claim C6: `match` normalizes by dropping the query string, stripping
one trailing slash except for the literal root, and percent-decoding with
a fall-back to the raw string on decode failure, so the three `/about`
variants resolve identically, the root keeps its slash, and a malformed
percent-encoding is matched as-is instead of raising. -/
theorem C6_normalization :
    (∀ url, decodeURIComponentOpt (preDecode url) = none →
      normalizeUrl url = preDecode url) ∧
    (∀ R, matchRoute "/about?x=1" R = matchRoute "/about" R ∧
      matchRoute "/about/" R = matchRoute "/about" R) ∧
    normalizeUrl "/" = "/" ∧
    decodeURIComponentOpt (preDecode "/mal%zzformed") = none ∧
    (∀ R, matchRoute "/mal%zzformed" R = matchRouteList "/mal%zzformed" R) := by
  refine ⟨?_, fun R => ⟨rfl, rfl⟩, rfl, rfl, fun R => rfl⟩
  intro url h
  unfold normalizeUrl
  rw [h]

/-- Witness for C6: the decode-failure fallback evaluated at a concrete
malformed URL. -/
theorem C6_witness : normalizeUrl "/mal%zzformed" = preDecode "/mal%zzformed" :=
  C6_normalization.1 "/mal%zzformed" rfl

/-- Claim C7, as stated, is false on the code in two ways.  First, the
endpoint matcher does not apply the page matcher's per-segment semantics
on every pattern: the derivable pattern `/api/c++` (from the file
`c++.ts`) has a literal segment ending in `+`; the endpoint matcher
requires a catch-all to be a `:`-token (api-handler.ts 191) and treats
`c++` as static, while the page matcher classifies by suffix alone and
treats it as a catch-all, so on `/api/x/y` the code rejects where the
claimed semantics matches.  Second, the method skip is not
case-insensitive for every route list: a recorded method `GET` compares
unequal to the lowercased request (api-handler.ts 164), so a `GET`
request is skipped although the two differ only in case. -/
theorem C7_counterexample :
    filePathToRoutePattern "server/api/c++.ts" DirType.api = "/api/c++" ∧
    matchApiRoute "/api/x/y" "GET" exPlusApiRoutes = none ∧
    (claimMatchEndpoint "/api/x/y" "GET" exPlusApiRoutes).isSome = true ∧
    matchApiRoute "/api/u" "GET" exUpperMethodRoutes = none ∧
    (claimMatchEndpoint "/api/u" "GET" exUpperMethodRoutes).isSome = true := by
  refine ⟨rfl, rfl, rfl, rfl, rfl⟩

/-- Claim C7 amended: for endpoint route lists whose recorded methods are
drawn from the recognized lowercase verb set (as the scanner records
them) and whose patterns carry a `+` suffix only on `:`-tokens and no
`*`-suffixed segments (which excludes literal segments from filenames
themselves ending in `+`, such as `/api/c++` from `c++.ts`),
`matchApiRoute` is the linear scan the spec describes — skip a route
whose recorded method is set and differs case-insensitively, per-segment
matching is the page matcher's with an endpoint catch-all bound as one
slash-joined string — and the get/post example routes answer GET with
the get route and DELETE with no match. -/
theorem C7_endpoint_matcher :
    (∀ pathname method routes,
      (∀ r ∈ routes, ∀ m, r.method = some m → m ∈ httpMethods) →
      (∀ r ∈ routes, ∀ s ∈ urlSegments r.pattern, SegApiWf s) →
      matchApiRoute pathname method routes =
        claimMatchEndpoint pathname method routes) ∧
    (matchApiRoute "/api/users" "GET" exMethodRoutes).map
      (fun r => r.1.file_path) = some "f1" ∧
    matchApiRoute "/api/users" "DELETE" exMethodRoutes = none :=
  ⟨fun pathname method routes h1 h2 =>
    matchApiRouteAux_eq_claim pathname method routes h1 h2, rfl, rfl⟩

/-- Witness for C7: the refinement evaluated on the concrete get/post
route table. -/
theorem C7_witness :
    matchApiRoute "/api/users" "get" exMethodRoutes =
      claimMatchEndpoint "/api/users" "get" exMethodRoutes :=
  C7_endpoint_matcher.1 "/api/users" "get" exMethodRoutes (by decide) (by decide)

/-- Claim C8: endpoint pattern derivation strips the kind prefix, the
extension and a recognized trailing verb (case-insensitively), drops a
trailing `index` segment, converts `[name]`/`[...name]` (but no optional
catch-all form), prefixes `/api` only for the api kind, and collapses an
empty remainder to the root; `extractHttpMethod` returns the lowercase
trailing verb exactly when present and recognized. -/
theorem C8_endpoint_pattern :
    (∀ name, name.data ≠ [] → name.data.all isWordChar = true →
      apiSegToUrl ("[" ++ name ++ "]") = ":" ++ name ∧
      apiSegToUrl ("[..." ++ name ++ "]") = ":" ++ name ++ "+") ∧
    (∀ m ∈ httpMethods, extractHttpMethod ("users." ++ m ++ ".ts") = some m) ∧
    extractHttpMethod "users.GET.ts" = some "get" ∧
    extractHttpMethod "users.ts" = none ∧
    extractHttpMethod "index.ts" = none ∧
    extractHttpMethod "get.ts" = none ∧
    filePathToRoutePattern "server/api/users.ts" DirType.api = "/api/users" ∧
    filePathToRoutePattern "server/api/users/[id].ts" DirType.api = "/api/users/:id" ∧
    filePathToRoutePattern "server/api/users.get.ts" DirType.api = "/api/users" ∧
    filePathToRoutePattern "server/api/users.GET.ts" DirType.api = "/api/users" ∧
    filePathToRoutePattern "server/api/[...slug].ts" DirType.api = "/api/:slug+" ∧
    filePathToRoutePattern "server/api/[[...s]].ts" DirType.api = "/api/[[...s]]" ∧
    filePathToRoutePattern "server/routes/health.ts" DirType.routes = "/health" ∧
    filePathToRoutePattern "server/api/users/index.ts" DirType.api = "/api/users" ∧
    filePathToRoutePattern "server/api/index.ts" DirType.api = "/api" ∧
    filePathToRoutePattern "server/routes/index.ts" DirType.routes = "/" :=
  ⟨fun name h1 h2 => ⟨apiSegToUrl_dynamic name h1 h2, apiSegToUrl_catchall name h1 h2⟩,
   by decide, by decide⟩

/-- Witness for C8: the bracket conversions evaluated at the name `id`. -/
theorem C8_witness :
    apiSegToUrl ("[" ++ "id" ++ "]") = ":" ++ "id" ∧
    apiSegToUrl ("[..." ++ "id" ++ "]") = ":" ++ "id" ++ "+" :=
  C8_endpoint_pattern.1 "id" (by decide) (by decide)

/-- Claim C9: page pattern derivation maps `[...name]` to `:name+`,
`[[...name]]` to `:name*`, `[name]` to `:name`, and any other segment to
itself; a lone `index` segment yields the root pattern `/` and a trailing
one is dropped; `[id].vue` yields `/:id` with `isDynamic` and
`params = ["id"]`; and a file with an underscore-initial path segment is
excluded from scanning. -/
theorem C9_page_pattern :
    (∀ name, name.data ≠ [] → name.data.all isWordChar = true →
      segToUrl ("[..." ++ name ++ "]") = (":" ++ name ++ "+", some name) ∧
      segToUrl ("[[..." ++ name ++ "]]") = (":" ++ name ++ "*", some name) ∧
      segToUrl ("[" ++ name ++ "]") = (":" ++ name, some name)) ∧
    (∀ seg, matchCatchAllSeg seg = none → matchOptCatchAllSeg seg = none →
      matchDynamicSeg seg = none → segToUrl seg = (seg, none)) ∧
    (fileToRoute "index.vue" "pages").pattern = "/" ∧
    (fileToRoute "about/index.vue" "pages").pattern = "/about" ∧
    ((fileToRoute "[id].vue" "pages").pattern = "/:id" ∧
      (fileToRoute "[id].vue" "pages").isDynamic = true ∧
      (fileToRoute "[id].vue" "pages").params = ["id"]) ∧
    (∀ f files pagesDir, hasUnderscoreSegment f = true →
      scanPageRoutesList (f :: files) pagesDir = scanPageRoutesList files pagesDir) := by
  refine ⟨fun name h1 h2 => ⟨segToUrl_catchall name h1 h2, segToUrl_optional name h1 h2,
    segToUrl_dynamic name h1 h2⟩, segToUrl_literal, rfl, rfl, ⟨rfl, rfl, rfl⟩, ?_⟩
  intro f files pagesDir h
  unfold scanPageRoutesList
  rw [List.filter_cons, if_neg (by simp [h])]

/-- Witness for C9: the three bracket conversions evaluated at `slug`. -/
theorem C9_witness :
    segToUrl ("[..." ++ "slug" ++ "]") = (":" ++ "slug" ++ "+", some "slug") ∧
    segToUrl ("[[..." ++ "slug" ++ "]]") = (":" ++ "slug" ++ "*", some "slug") ∧
    segToUrl ("[" ++ "slug" ++ "]") = (":" ++ "slug", some "slug") :=
  C9_page_pattern.1 "slug" (by decide) (by decide)

/-- Claim C10: scanning a missing pages directory yields the empty route
list (the glob walk of a nonexistent directory yields no matches), and
the endpoint scanner skips nonexistent `server/api` and `server/routes`
directories via its `existsSync` guard, yielding the empty list — neither
scan fails. -/
theorem C10_missing_dirs :
    (∀ (fs : FileSystem) (pagesDir : String), fs.dirExists pagesDir = false →
      scanPageRoutesFS fs pagesDir = []) ∧
    (∀ (fs : FileSystem) (root : String),
      fs.dirExists (root ++ "/server/api") = false →
      fs.dirExists (root ++ "/server/routes") = false →
      scanApiRoutesFS fs root = []) := by
  constructor
  · intro fs pagesDir h
    unfold scanPageRoutesFS FileSystem.globFiles
    cases hg : assocGet pagesDir fs.dirs with
    | none => rfl
    | some files =>
      unfold FileSystem.dirExists at h
      rw [hg] at h
      exact absurd h (by simp)
  · intro fs root h1 h2
    unfold scanApiRoutesFS
    simp only [List.foldl_cons, List.foldl_nil, h1, h2, Bool.false_eq_true, if_false]

/-- Witness for C10: both scanners evaluated on the empty filesystem. -/
theorem C10_witness :
    scanPageRoutesFS { dirs := [] } "proj/pages" = [] ∧
    scanApiRoutesFS { dirs := [] } "proj" = [] :=
  ⟨C10_missing_dirs.1 { dirs := [] } "proj/pages" rfl,
   C10_missing_dirs.2 { dirs := [] } "proj" rfl rfl⟩

end Vinuxt
